import Mathlib

/-!
Verification development for the oas3-modularize transformation engine.

The JavaScript sources are shallowly embedded: JSON-compatible runtime values
become the inductive type `JVal`, JavaScript strings become Lean `String`s
(the repository only manipulates ASCII identifiers, so the case-conversion
primitives are modelled on the ASCII range), fallible code returns
`Except String _` where the source can throw a `TypeError`/`SyntaxError`,
and the in-place mutation performed by `transform` is modelled by a small
heap of addressed nodes for the frame-effect theorem.
-/

/- ===================== JS character primitives (ASCII) ===================== -/

def isAsciiLower (c : Char) : Bool := decide ('a' ≤ c) && decide (c ≤ 'z')

def isAsciiUpper (c : Char) : Bool := decide ('A' ≤ c) && decide (c ≤ 'Z')

def isAsciiDigit (c : Char) : Bool := decide ('0' ≤ c) && decide (c ≤ '9')

/-- JS whitespace test restricted to the characters that can appear in the
documents handled here. -/
def isJsWs (c : Char) : Bool := c = ' ' || c = '\t' || c = '\n' || c = '\r'

/-- Models `String.prototype.toLowerCase` on the ASCII range (the repository
only generates and consumes ASCII identifiers). -/
def asciiToLower (c : Char) : Char :=
  if isAsciiUpper c then Char.ofNat (c.toNat + 32) else c

/-- Models `String.prototype.toUpperCase` on the ASCII range. -/
def asciiToUpper (c : Char) : Char :=
  if isAsciiLower c then Char.ofNat (c.toNat - 32) else c

/- ===================== decimal printing of naturals ===================== -/

/-- Decimal digit character for `d < 10`. -/
def digitChar10 (d : Nat) : Char := Char.ofNat (48 + d)

/-- Decimal representation of a natural number; models the JS number-to-string
coercion `'' + n` for non-negative integers. -/
def natRepr10 (n : Nat) : String :=
  if n = 0 then "0" else String.mk (((Nat.digits 10 n).map digitChar10).reverse)

/-- Decimal representation of an integer. -/
def intRepr10 (i : Int) : String :=
  if i < 0 then "-" ++ natRepr10 i.natAbs else natRepr10 i.natAbs

/-- Inverse of `natRepr10`, used only to prove injectivity. -/
def natUnrepr10 (s : String) : Nat :=
  Nat.ofDigits 10 ((s.data.map (fun c => c.toNat - 48)).reverse)

/- ===================== JS string helpers ===================== -/

/-- `String.prototype.toLowerCase` (ASCII fragment). -/
def toLowerStr (s : String) : String := String.mk (s.data.map asciiToLower)

/-- `String.prototype.toUpperCase` (ASCII fragment). -/
def toUpperStr (s : String) : String := String.mk (s.data.map asciiToUpper)

/-- `p.isPrefixOf`-based model of `String.prototype.startsWith`. -/
def jsStartsWith (s p : String) : Bool := p.data.isPrefixOf s.data

/-- Model of `String.prototype.endsWith`. -/
def jsEndsWith (s p : String) : Bool := p.data.isSuffixOf s.data

/-- Case-insensitive suffix test, models `/xyz$/i.test(name)`. -/
def jsEndsWithCI (s p : String) : Bool :=
  (p.data.map asciiToLower).isSuffixOf (s.data.map asciiToLower)

/-- `String.prototype.trim` over the whitespace characters in `isJsWs`. -/
def jsTrimL (l : List Char) : List Char :=
  ((l.dropWhile isJsWs).reverse.dropWhile isJsWs).reverse

def jsTrim (s : String) : String := String.mk (jsTrimL s.data)

/-- One pass of `.replace(/([a-z])([A-Z])/g, '$1 $2')`: inserts a space between
a lowercase letter and the uppercase letter that follows it.  The JS global
scan resumes after each two-character match; since no character is both
lowercase and uppercase, matches never overlap and this pairwise scan is
equivalent. -/
def camelSplitChars : List Char → List Char
  | [] => []
  | [c] => [c]
  | a :: b :: rest =>
    if isAsciiLower a && isAsciiUpper b then a :: ' ' :: camelSplitChars (b :: rest)
    else a :: camelSplitChars (b :: rest)

/-- Global single-character substitution: models the source's regex replaces of
every underscore (and, in a second pass, every hyphen) by a space. -/
def replaceChar (from_ to_ : Char) (l : List Char) : List Char :=
  l.map (fun c => if c = from_ then to_ else c)

/-- `.replace(/[_-]+/g, ' ')`: each run of underscores/hyphens becomes one
space.  `inRun` records whether the previous character belonged to a run. -/
def collapseUHAux (inRun : Bool) : List Char → List Char
  | [] => []
  | c :: t =>
    if c = '_' || c = '-' then
      (if inRun then collapseUHAux true t else ' ' :: collapseUHAux true t)
    else c :: collapseUHAux false t

def collapseUH (l : List Char) : List Char := collapseUHAux false l

/-- Splitting on whitespace runs, dropping empty tokens: the composite of the
source's `.trim().split(/\s+/).filter(w => w.length > 0)`. -/
def splitNonWsAux (cur : List Char) : List Char → List (List Char)
  | [] => if cur.isEmpty then [] else [cur.reverse]
  | c :: t =>
    if isJsWs c then
      (if cur.isEmpty then splitNonWsAux [] t else cur.reverse :: splitNonWsAux [] t)
    else splitNonWsAux (c :: cur) t

def splitNonWs (l : List Char) : List (List Char) := splitNonWsAux [] l

/-- `route.split('/')` (keeps empty pieces, like the JS `String.prototype.split`
with a single-character separator). -/
def splitOnCharAux (sep : Char) (cur : List Char) : List Char → List (List Char)
  | [] => [cur.reverse]
  | c :: t =>
    if c = sep then cur.reverse :: splitOnCharAux sep [] t
    else splitOnCharAux sep (c :: cur) t

def splitOnChar (sep : Char) (s : String) : List String :=
  (splitOnCharAux sep [] s.data).map String.mk

/- ===================== bin/core/namingConventions.js ===================== -/

/-- `toWords` on character lists: camel-case boundary split, then `_`/`-` to
spaces, lowercase, trim and split on whitespace (namingConventions.js:12-24). -/
def toWordsL (l : List Char) : List (List Char) :=
  splitNonWs (jsTrimL (((replaceChar '-' ' ' (replaceChar '_' ' '
    (camelSplitChars l)))).map asciiToLower))

def toWords (s : String) : List String := (toWordsL s.data).map String.mk

/-- `w.charAt(0).toUpperCase() + w.slice(1)` -/
def capWordL (w : List Char) : List Char :=
  match w with
  | [] => []
  | c :: t => asciiToUpper c :: t

/-- PascalCase join of a word list: each word capitalized, joined with ''. -/
def pascalOfWordsL (ws : List (List Char)) : List Char := (ws.map capWordL).flatten

/-- `applyNamingConvention(name, convention)` (namingConventions.js:32-67).
An unknown convention falls back to PascalCase, as in the source's `default`
branch. -/
def applyNamingConvention (name : String) (convention : String) : String :=
  if name = "" then ""
  else
    let words := toWordsL name.data
    if words.isEmpty then name
    else if convention = "PascalCase" then String.mk (pascalOfWordsL words)
    else if convention = "camelCase" then
      match words with
      | [] => name
      | w :: t => String.mk ((w.map asciiToLower) ++ pascalOfWordsL t)
    else if convention = "snake_case" then String.mk ((words.intersperse ['_']).flatten)
    else if convention = "kebab-case" then String.mk ((words.intersperse ['-']).flatten)
    else if convention = "lowercase" then String.mk words.flatten
    else if convention = "UPPERCASE" then String.mk (((words.intersperse ['_']).flatten).map asciiToUpper)
    else String.mk (pascalOfWordsL words)

/-- `applyAffixes(name, prefix, suffix)` (namingConventions.js:78-98). -/
def applyAffixes (name pre suf : String) : String :=
  if name = "" then ""
  else
    let r1 := if pre ≠ "" && !(jsStartsWith name pre) then pre ++ name else name
    if suf ≠ "" && !(jsEndsWith r1 suf) then r1 ++ suf else r1

/- ===================== transform.js string utilities ===================== -/

/-- `naiveSingularize` (transform.js:186-192). -/
def naiveSingularize (name : String) : String :=
  if name = "" then name
  else if jsEndsWithCI name "ies" then
    String.mk (name.data.take (name.data.length - 3) ++ ['y'])
  else if jsEndsWithCI name "ses" then
    String.mk (name.data.take (name.data.length - 2))
  else if jsEndsWithCI name "s" then
    String.mk (name.data.take (name.data.length - 1))
  else name

/-- Leading-digit-run value, for `parseInt(s, 10)`. -/
def parseIntDigits (l : List Char) : Option Nat :=
  let ds := l.takeWhile isAsciiDigit
  if ds.isEmpty then none
  else some (ds.foldl (fun acc c => 10 * acc + (c.toNat - 48)) 0)

/-- `parseInt(s, 10)`: skip leading whitespace, optional sign, leading digits;
`none` models `NaN`. -/
def jsParseInt10 (s : String) : Option Int :=
  match s.data.dropWhile isJsWs with
  | '-' :: t => (parseIntDigits t).map (fun n => -(n : Int))
  | '+' :: t => (parseIntDigits t).map (fun n => (n : Int))
  | t => (parseIntDigits t).map (fun n => (n : Int))

/-- `is2xxStatus` (transform.js:181-184). -/
def is2xxStatus (statusCode : String) : Bool :=
  match jsParseInt10 statusCode with
  | none => false
  | some n => decide (200 ≤ n) && decide (n < 300)

/-- `getVerbForMethod` (transform.js:311-320). -/
def getVerbForMethod (method : String) : String :=
  if method = "get" then "Retrieve"
  else if method = "post" then "Create"
  else if method = "put" then "Update"
  else if method = "patch" then "Patch"
  else if method = "delete" then "Delete"
  else "Operation"

def HTTP_METHODS : List String :=
  ["get", "post", "put", "delete", "patch", "options", "head", "trace"]

/-- `/^v\d+$/i.test(s)` -/
def isVersionSeg (s : String) : Bool :=
  match s.data with
  | c :: rest => (c = 'v' || c = 'V') && !rest.isEmpty && rest.all isAsciiDigit
  | [] => false

/- ===================== exact rationals for scores ===================== -/

/-- Exact rational numbers used to model the JS floating-point score
arithmetic of the style detector.  Every quantity the detector computes in
the situations analysed here (ratios of small counts, sums, divisions by the
check count) is an exact rational, and the comparisons the theorems rely on
(`score > 0`, ordering of equal scores) have the same outcome in binary
floating point, so the model is faithful for those statements. -/
structure JQ where
  n : Int
  d : Int
deriving DecidableEq, Repr

def JQ.ofInt (i : Int) : JQ := ⟨i, 1⟩

/-- Normalize the sign so the denominator is positive (0 denominators map to 0). -/
def JQ.normSign (q : JQ) : JQ :=
  if q.d = 0 then ⟨0, 1⟩
  else if q.d < 0 then ⟨-q.n, -q.d⟩
  else q

def JQ.leB (a b : JQ) : Bool :=
  let a := a.normSign
  let b := b.normSign
  decide (a.n * b.d ≤ b.n * a.d)

def JQ.ltB (a b : JQ) : Bool :=
  let a := a.normSign
  let b := b.normSign
  decide (a.n * b.d < b.n * a.d)

def JQ.add (a b : JQ) : JQ := ⟨a.n * b.d + b.n * a.d, a.d * b.d⟩

def JQ.sub (a b : JQ) : JQ := ⟨a.n * b.d - b.n * a.d, a.d * b.d⟩

def JQ.mul (a b : JQ) : JQ := ⟨a.n * b.n, a.d * b.d⟩

def JQ.div (a b : JQ) : JQ := JQ.normSign ⟨a.n * b.d, a.d * b.n⟩

/-- `Math.round`: ⌊q + 1/2⌋ (rounds halves toward +∞, like JS). -/
def JQ.round (q : JQ) : Int :=
  let q := q.normSign
  Int.fdiv (2 * q.n + q.d) (2 * q.d)

/-- Embedding into `ℚ`, used in proofs only. -/
def JQ.toRat (q : JQ) : ℚ :=
  let q := q.normSign
  (q.n : ℚ) / (q.d : ℚ)

/- ===================== JSON-compatible runtime values ===================== -/

/-- JS runtime values the core manipulates.  `undef` models `undefined`
(distinct from JSON `null`).  Object fields are kept in property order; the
documents fed to the theorems list integer-like keys first, matching the JS
property-enumeration order of the corresponding runtime objects. -/
inductive JVal where
  | undef
  | null
  | bool (b : Bool)
  | num (q : JQ)
  | str (s : String)
  | arr (elems : List JVal)
  | obj (fields : List (String × JVal))
deriving Repr

/-- JS truthiness. -/
def truthy : JVal → Bool
  | .undef => false
  | .null => false
  | .bool b => b
  | .num q => !(q.n = 0 : Bool)
  | .str s => !(s = "" : Bool)
  | .arr _ => true
  | .obj _ => true

/-- `typeof v === 'object'` (true for objects, arrays and `null`). -/
def isJsObject : JVal → Bool
  | .obj _ => true
  | .arr _ => true
  | .null => true
  | _ => false

def lookupField (fs : List (String × JVal)) (k : String) : Option JVal :=
  (fs.find? (fun p => p.1 = k)).map (·.2)

/-- Canonical decimal array index, if `k` denotes one. -/
def canonIndex (k : String) : Option Nat :=
  match k.data with
  | [] => none
  | c :: rest =>
    if c = '0' && rest.isEmpty then some 0
    else if isAsciiDigit c && !(c = '0') && rest.all isAsciiDigit then
      some ((c :: rest).foldl (fun acc ch => 10 * acc + (ch.toNat - 48)) 0)
    else none

/-- Optional-chaining property read `v?.[k]`: `undefined` on nullish `v`,
`undefined` on primitives (none of the flows modelled here reads built-in
properties such as `length`). -/
def jsGetOpt (v : JVal) (k : String) : JVal :=
  match v with
  | .obj fs => (lookupField fs k).getD .undef
  | .arr xs =>
    match canonIndex k with
    | some i => (xs.get? i).getD .undef
    | none => .undef
  | _ => JVal.undef

/-- Plain property read `v[k]`: throws `TypeError` on `null`/`undefined`. -/
def jsGet (v : JVal) (k : String) : Except String JVal :=
  match v with
  | .null => .error "TypeError"
  | .undef => .error "TypeError"
  | _ => .ok (jsGetOpt v k)

/-- `Object.entries(v)` for a non-nullish `v`. -/
def jsEntries (v : JVal) : List (String × JVal) :=
  match v with
  | .obj fs => fs
  | .arr xs => (xs.enum).map (fun p => (natRepr10 p.1, p.2))
  | .str s => (s.data.enum).map (fun p => (natRepr10 p.1, JVal.str (String.mk [p.2])))
  | _ => []

/-- `a || b` -/
def jsOr (a b : JVal) : JVal := if truthy a then a else b

/-- Property assignment on an object field list: overwrite-in-place keeps the
original key position, a new key is appended (JS property order). -/
def setField : List (String × JVal) → String → JVal → List (String × JVal)
  | [], k, v => [(k, v)]
  | (k', v') :: t, k, v =>
    if k' = k then (k, v) :: t else (k', v') :: setField t k v

def arrWrite (xs : List JVal) (i : Nat) (x : JVal) : List JVal :=
  if i < xs.length then xs.set i x
  else xs ++ List.replicate (i - xs.length) .undef ++ [x]

/-- Property write `v[k] = x`: throws on nullish `v`, silently ignored on
primitives (sloppy mode), updates objects and (canonically indexed) arrays. -/
def jsWriteKey (v : JVal) (k : String) (x : JVal) : Except String JVal :=
  match v with
  | .null => .error "TypeError"
  | .undef => .error "TypeError"
  | .obj fs => .ok (.obj (setField fs k x))
  | .arr xs =>
    match canonIndex k with
    | some i => .ok (.arr (arrWrite xs i x))
    | none => .ok (.arr xs)
  | w => .ok w

/- The value part of `JSON.parse(JSON.stringify(v))`: `undefined`-valued
object fields disappear, `undefined` array elements become `null`. -/
mutual
def jsonClean : JVal → JVal
  | .undef => .undef
  | .null => .null
  | .bool b => .bool b
  | .num q => .num q
  | .str s => .str s
  | .arr xs => .arr (jsonCleanList xs)
  | .obj fs => .obj (jsonCleanFields fs)

def jsonCleanList : List JVal → List JVal
  | [] => []
  | x :: t =>
    (match jsonClean x with
     | .undef => .null
     | y => y) :: jsonCleanList t

def jsonCleanFields : List (String × JVal) → List (String × JVal)
  | [] => []
  | (k, v) :: t =>
    match jsonClean v with
    | .undef => jsonCleanFields t
    | y => (k, y) :: jsonCleanFields t
end

/-- `JSON.parse(JSON.stringify(v))` as one step: throws a `SyntaxError` when
`JSON.stringify` produced no text (top-level `undefined`). -/
def jsonCleanTop (v : JVal) : Except String JVal :=
  match jsonClean v with
  | .undef => .error "SyntaxError"
  | w => .ok w

/- ===================== JSON serialization ===================== -/

def jsonEscapeChar (c : Char) : List Char :=
  if c = '"' then ['\\', '"']
  else if c = '\\' then ['\\', '\\']
  else if c = '\n' then ['\\', 'n']
  else if c = '\t' then ['\\', 't']
  else if c = '\r' then ['\\', 'r']
  else [c]

def jsonQuote (s : String) : String :=
  "\"" ++ String.mk ((s.data.map jsonEscapeChar).flatten) ++ "\""

/-- JSON text of a `JQ` number.  All numbers serialized by the flows modelled
here are integers; the non-integer branch is never reached by the theorems. -/
def jqToJson (q : JQ) : String :=
  let q := q.normSign
  if q.d = 1 then intRepr10 q.n
  else intRepr10 q.n ++ "e" ++ intRepr10 q.d

def allowedKey (allowed : Option (List String)) (k : String) : Bool :=
  match allowed with
  | none => true
  | some ks => ks.contains k

/- `JSON.stringify(v, replacer?)` where `replacer` is an optional key
allow-list.  As in JS, the allow-list filters object properties at every
nesting level but never array elements. -/
mutual
def jsonStrAux (allowed : Option (List String)) : JVal → Option String
  | .undef => none
  | .null => some "null"
  | .bool true => some "true"
  | .bool false => some "false"
  | .num q => some (jqToJson q)
  | .str s => some (jsonQuote s)
  | .arr xs => some ("[" ++ String.intercalate "," (jsonStrArr allowed xs) ++ "]")
  | .obj fs => some ("\x7b" ++ String.intercalate "," (jsonStrFields allowed fs) ++ "\x7d")

def jsonStrArr (allowed : Option (List String)) : List JVal → List String
  | [] => []
  | x :: t => ((jsonStrAux allowed x).getD "null") :: jsonStrArr allowed t

def jsonStrFields (allowed : Option (List String)) : List (String × JVal) → List String
  | [] => []
  | (k, v) :: t =>
    if allowedKey allowed k then
      match jsonStrAux allowed v with
      | none => jsonStrFields allowed t
      | some s => (jsonQuote k ++ ":" ++ s) :: jsonStrFields allowed t
    else jsonStrFields allowed t
end

/-- `JSON.stringify(v)` (no replacer). -/
def jsonStringify (v : JVal) : Option String := jsonStrAux none v

/- ===================== transform.js: schema classification ===================== -/

def jsStrictEqStr (v : JVal) (s : String) : Bool :=
  match v with
  | .str t => t = s
  | _ => false

/-- `classifySchema` (transform.js:98-110). -/
def classifySchema (schema : JVal) : String :=
  if !(truthy schema) || !(isJsObject schema) then "objects"
  else if truthy (jsGetOpt schema "enum") then "enums"
  else if jsStrictEqStr (jsGetOpt schema "type") "array" then "arrays"
  else if truthy (jsGetOpt schema "allOf") || truthy (jsGetOpt schema "oneOf")
       || truthy (jsGetOpt schema "anyOf") then "composites"
  else if jsStrictEqStr (jsGetOpt schema "type") "object"
       && truthy (jsGetOpt schema "properties") then "objects"
  else if jsStrictEqStr (jsGetOpt schema "type") "string"
       || jsStrictEqStr (jsGetOpt schema "type") "number"
       || jsStrictEqStr (jsGetOpt schema "type") "integer"
       || jsStrictEqStr (jsGetOpt schema "type") "boolean" then "properties"
  else "objects"

/- ===================== transform.js: smart naming ===================== -/

/- Splitting on runs of a character class, keeping empty edge tokens, like the
JS `String.prototype.split` with a character-class-plus regex. -/
mutual
def splitClassAux (p : Char → Bool) (cur : List Char) : List Char → List (List Char)
  | [] => [cur.reverse]
  | c :: t =>
    if p c then cur.reverse :: splitClassSkip p t
    else splitClassAux p (c :: cur) t

def splitClassSkip (p : Char → Bool) : List Char → List (List Char)
  | [] => [[]]
  | c :: t => if p c then splitClassSkip p t else splitClassAux p [c] t
end

def splitClass (p : Char → Bool) (l : List Char) : List (List Char) := splitClassAux p [] l

def isWsUH (c : Char) : Bool := isJsWs c || c = '_' || c = '-'

def ENTITY_VERBS : List String :=
  ["get", "list", "create", "update", "delete", "retrieve", "search",
   "register", "exchange", "execute", "control", "request", "initiate",
   "notify", "approve", "reject", "activate", "deactivate"]

/-- The static route segments used by transform.js (lines 218-220 / 246-248):
split on `/`, drop empties, parameter placeholders, version segments and the
literal `api`. -/
def transformStaticSegments (route : String) : List String :=
  (splitOnChar '/' route).filter (fun s =>
    !(s = "") && !(jsStartsWith s "\x7b") && !(isVersionSeg s) && !(s = "api"))

/-- `inferEntityFromPath` (transform.js:203-236).  Throws `TypeError` when a
truthy non-string `operationId` reaches `.trim()`.  The `typeof route`
guard of the source is always satisfied here because route keys are strings. -/
def inferEntityFromPath (route : String) (operation : JVal) : Except String String := do
  let opIdV := jsGetOpt operation "operationId"
  let fromOpId ←
    (if truthy opIdV then do
      let s ← (match opIdV with
               | .str s => Except.ok s
               | _ => Except.error "TypeError")
      let opId := jsTrim s
      let words := (splitClass isWsUH (camelSplitChars opId.data)).map String.mk
      match words.find? (fun w => !(ENTITY_VERBS.contains (toLowerStr w))) with
      | some c =>
        if c ≠ "" then pure (some (applyNamingConvention c "PascalCase")) else pure none
      | none => pure none
     else pure none)
  match fromOpId with
  | some e => return e
  | none =>
    let segments := transformStaticSegments route
    if segments.isEmpty then return "Resource"
    else
      let last0 := segments.getLastD ""
      let last1 :=
        if jsStartsWith last0 ":" then
          (if segments.length > 1 then (segments.get? (segments.length - 2)).getD "Resource"
           else "Resource")
        else last0
      let last2 := String.mk (collapseUH last1.data)
      let last3 := applyNamingConvention last2 "PascalCase"
      let last4 := naiveSingularize last3
      return (if last4 = "" then "Resource" else last4)

def KNOWN_ACTIONS : List String :=
  ["Register", "Retrieve", "Update", "Execute", "Exchange", "Control",
   "Request", "Initiate", "Create", "Evaluate", "Provide", "Notify", "Capture",
   "notify", "approve", "reject", "activate", "deactivate", "transfer",
   "promote", "calculate", "search", "generate", "archive", "delete"]

/-- `inferActionFromPath` (transform.js:243-275); `method` is accepted but
unused, as in the source. -/
def inferActionFromPath (route : String) (_method : String) : Option String :=
  let segments := transformStaticSegments route
  if segments.isEmpty then none
  else
    let last := segments.getLastD ""
    if jsStartsWith last ":" then
      some (applyNamingConvention (String.mk last.data.tail) "PascalCase")
    else
      let lastPascal := applyNamingConvention last "PascalCase"
      if KNOWN_ACTIONS.any (fun a => toLowerStr a = toLowerStr last) then some lastPascal
      else none

/-- JS string coercion of the values this development feeds to string
concatenation (all of them primitives; `statusNames` tables hold strings). -/
def jvalToNameString (v : JVal) : String :=
  match v with
  | .str s => s
  | .num q => jqToJson q
  | .bool true => "true"
  | .bool false => "false"
  | .null => "null"
  | .undef => "undefined"
  | .arr _ => ""
  | .obj _ => "[object Object]"

/-- `buildSmartResponseName` (transform.js:280-309). -/
def buildSmartResponseName (statusCode route method : String) (operation : JVal)
    (style : String) (statusNames : JVal) : Except String String := do
  let entity ← inferEntityFromPath route operation
  let action := inferActionFromPath route method
  let m := toLowerStr method
  if !(is2xxStatus statusCode) then
    let baseName := jsOr (jsGetOpt statusNames statusCode) (.str ("Status" ++ statusCode))
    return jvalToNameString baseName ++ "Response"
  else if style = "bian" || style = "rpc" || style = "google" then
    match action with
    | some a => return a ++ entity ++ "Response"
    | none => return getVerbForMethod m ++ entity ++ "Response"
  else
    return getVerbForMethod m ++ entity ++ "Response"

/- ===================== transform.js: content signatures ===================== -/

def buildSigFields : List (String × JVal) → Except String (List (String × JVal))
  | [] => .ok []
  | (mt, mc) :: t => do
    let sch ← jsGet mc "schema"
    let rest ← buildSigFields t
    .ok ((mt, JVal.obj [("schema", jsOr sch JVal.null)]) :: rest)

/-- `getContentSignature` (transform.js:172-179).  The second argument of the
source's `JSON.stringify(sig, Object.keys(sig).sort())` is a *replacer
allow-list*: it admits exactly the top-level media-type keys (sorting does not
change membership), so the nested `schema` key is serialized only when a media
type is literally named `schema`.  Returns `null` (as `JVal.null`) when the
response has no truthy `content`; throws when a media-type entry is nullish
(`mc.schema`). -/
def getContentSignature (resp : JVal) : Except String JVal := do
  let content := jsGetOpt resp "content"
  if !(truthy content) then return JVal.null
  let sigFields ← buildSigFields (jsEntries content)
  let keys := sigFields.map (·.1)
  match jsonStrAux (some keys) (JVal.obj sigFields) with
  | some s => return JVal.str s
  | none => return JVal.null

/- ===================== transform.js: unique response names ===================== -/

def lookupAssoc {α : Type} (l : List (String × α)) (k : String) : Option α :=
  (l.find? (fun p => p.1 = k)).map (·.2)

def setAssoc {α : Type} : List (String × α) → String → α → List (String × α)
  | [], k, v => [(k, v)]
  | (k', v') :: t, k, v =>
    if k' = k then (k, v) :: t else (k', v') :: setAssoc t k v

/-- `name.replace(/Response$/, '')` (case sensitive, end anchored). -/
def stripResponseSuffix (name : String) : String :=
  if jsEndsWith name "Response" then String.mk (name.data.take (name.data.length - 8))
  else name

/-- The `while (usedNames.has(uniqueName))` search of transform.js:375-380 and
443-446: try `stripped + c + 'Response'` for `c = 1, 2, …`.  The candidates for
distinct counters are distinct strings, so `used.length + 1` attempts provably
suffice and the fuel case is unreachable. -/
def ensureUniqueAux (stripped : String) (used : List String) : Nat → Nat → String
  | 0, c => stripped ++ natRepr10 c ++ "Response"
  | fuel + 1, c =>
    let cand := stripped ++ natRepr10 c ++ "Response"
    if used.contains cand then ensureUniqueAux stripped used fuel (c + 1)
    else cand

def ensureUnique (base : String) (used : List String) : String :=
  if used.contains base then
    ensureUniqueAux (stripResponseSuffix base) used (used.length + 1) 1
  else base

/- ===================== transform.js: inline response extraction ===================== -/

structure RespEntry where
  folder : String
  fileName : String
  statusCode : String
  route : Option String
  method : Option String
  original : Option String
deriving DecidableEq, Repr

structure ExtractResult where
  transformedPaths : JVal
  extractedResponses : List (String × JVal)
  responseMapping : List (String × RespEntry)

structure ExtractState where
  tp : JVal
  extracted : List (String × JVal)
  mapping : List (String × RespEntry)
  usedNames : List String
  errorSignatures : List (String × String)

def refObjResp (nm : String) : JVal :=
  JVal.obj [("$ref", .str ("#/components/responses/" ++ nm))]

/-- The write `transformedPaths[route][method].responses[statusCode] = ref`
(transform.js:357/399).  The cloned tree has no internal sharing, so writing
back along the read path is equivalent to the JS in-place leaf write. -/
def jsSetPath2 (tp : JVal) (route method sc : String) (v : JVal) : Except String JVal := do
  let o1 ← jsGet tp route
  let o2 ← jsGet o1 method
  let o3 ← jsGet o2 "responses"
  let o3' ← jsWriteKey o3 sc v
  let o2' ← jsWriteKey o2 "responses" o3'
  let o1' ← jsWriteKey o1 method o2'
  jsWriteKey tp route o1'

/-- Body of the innermost loop of `extractInlineResponses`
(transform.js:348-402), for one `(statusCode, response)` pair. -/
def extractRespStep (responseNaming statusNames : JVal) (dedupeErrors : Bool)
    (style : String) (route method : String) (operation : JVal)
    (st : ExtractState) (p : String × JVal) : Except String ExtractState := do
  let sc := p.1
  let response := p.2
  let refv ← jsGet response "$ref"
  if truthy refv then return st
  let is2 := is2xxStatus sc
  let sigKey? ←
    (if !is2 && dedupeErrors then do
       let sig ← getContentSignature response
       pure (some (jvalToNameString (jsOr sig (.str ("simple:" ++ sc)))))
     else pure none)
  let dedupHit :=
    match sigKey? with
    | some sigKey => lookupAssoc st.errorSignatures sigKey
    | none => none
  match dedupHit with
  | some nm => do
    let tp' ← jsSetPath2 st.tp route method sc (refObjResp nm)
    return { st with tp := tp' }
  | none => do
    let responseName ←
      if truthy (jsGetOpt responseNaming "enabled") then
        buildSmartResponseName sc route method operation style statusNames
      else pure ("Response" ++ sc)
    let uniqueName := ensureUnique responseName st.usedNames
    let errSigs :=
      match sigKey? with
      | some k => setAssoc st.errorSignatures k uniqueName
      | none => st.errorSignatures
    let tp' ← jsSetPath2 st.tp route method sc (refObjResp uniqueName)
    return { tp := tp',
             extracted := setAssoc st.extracted uniqueName response,
             mapping := setAssoc st.mapping uniqueName
               ⟨"responses", uniqueName, sc, some route, some method, none⟩,
             usedNames := st.usedNames ++ [uniqueName],
             errorSignatures := errSigs }

/-- Per-operation loop of `extractInlineResponses` (transform.js:344-403). -/
def extractOpStep (responseNaming statusNames : JVal) (dedupeErrors : Bool)
    (style : String) (route : String) (st : ExtractState) (p : String × JVal) :
    Except String ExtractState := do
  let method := p.1
  let operation := p.2
  if !(HTTP_METHODS.contains (toLowerStr method)) then return st
  if !(truthy (jsGetOpt operation "responses")) then return st
  (jsEntries (jsGetOpt operation "responses")).foldlM
    (extractRespStep responseNaming statusNames dedupeErrors style route method operation) st

/-- Per-route loop of `extractInlineResponses` (transform.js:341-404). -/
def extractRouteStep (responseNaming statusNames : JVal) (dedupeErrors : Bool)
    (style : String) (st : ExtractState) (p : String × JVal) :
    Except String ExtractState := do
  let route := p.1
  let pathObj := p.2
  if !(truthy pathObj) then return st
  (jsEntries pathObj).foldlM
    (extractOpStep responseNaming statusNames dedupeErrors style route) st

/-- `extractInlineResponses` (transform.js:329-407). -/
def extractInlineResponses (paths scaffolding : JVal) (style : String)
    (_namingConfig : JVal) : Except String ExtractResult := do
  let responseNaming := jsOr (← jsGet scaffolding "responseNaming") (.obj [])
  let statusNames := jsOr (← jsGet responseNaming "statusNames") (.obj [])
  let dedupeErrors :=
    match jsGetOpt responseNaming "dedupeErrors" with
    | .bool false => false
    | _ => true
  let tp0 ← jsonCleanTop paths
  let st0 : ExtractState := ⟨tp0, [], [], [], []⟩
  let st ← (jsEntries (jsOr paths (.obj []))).foldlM
    (extractRouteStep responseNaming statusNames dedupeErrors style) st0
  return ⟨st.tp, st.extracted, st.mapping⟩

/- ===================== transform.js: normalizing existing responses ===================== -/

structure NormalizeResult where
  normalizedResponses : List (String × JVal)
  responseMapping : List (String × RespEntry)
  refMapping : List (String × String)

/-- `originalName.match(/(\d{3})/)`: first run of three consecutive digits. -/
def find3Digits : List Char → Option String
  | a :: b :: d :: rest =>
    if isAsciiDigit a && isAsciiDigit b && isAsciiDigit d then some (String.mk [a, b, d])
    else find3Digits (b :: d :: rest)
  | _ => none

/-- `.replace(/\d{3}$/, '')` -/
def stripTrail3Digits (s : String) : String :=
  let l := s.data
  if 3 ≤ l.length && (l.drop (l.length - 3)).all isAsciiDigit then
    String.mk (l.take (l.length - 3))
  else s

/-- `.replace(/Response$/i, '')` -/
def stripResponseCI (s : String) : String :=
  if jsEndsWithCI s "Response" then String.mk (s.data.take (s.data.length - 8))
  else s

/-- `namingConfig?.components || 'PascalCase'`; a non-string value behaves like
an unknown convention (PascalCase fallback), represented by a sentinel that no
`switch` case matches. -/
def convStr (namingConfig : JVal) : String :=
  match jsOr (jsGetOpt namingConfig "components") (.str "PascalCase") with
  | .str s => s
  | _ => "\x00nonstring"

structure NormalizeState where
  normalized : List (String × JVal)
  mapping : List (String × RespEntry)
  refMapping : List (String × String)
  usedNames : List String

/-- Body of the `normalizeExistingResponses` loop (transform.js:425-461). -/
def normalizeStep (responseNaming statusNames : JVal) (convention : String)
    (st : NormalizeState) (p : String × JVal) : Except String NormalizeState := do
  let originalName := p.1
  let content := p.2
  let statusCode := (find3Digits originalName.data).getD "default"
  let newName ←
    if truthy (jsGetOpt responseNaming "enabled") then do
      let baseV := jsOr (jsGetOpt statusNames statusCode) (.str originalName)
      let base ← (match baseV with
                  | .str s => Except.ok s
                  | _ => Except.error "TypeError")
      let nn := applyNamingConvention (stripResponseCI (stripTrail3Digits base)) convention
      pure (if jsEndsWith nn "Response" then nn else nn ++ "Response")
    else pure originalName
  let uniqueName := ensureUnique newName st.usedNames
  let refMapping' :=
    if uniqueName ≠ originalName then
      setAssoc st.refMapping ("#/components/responses/" ++ originalName)
        ("#/components/responses/" ++ uniqueName)
    else st.refMapping
  return { normalized := setAssoc st.normalized uniqueName content,
           mapping := setAssoc st.mapping uniqueName
             ⟨"responses", uniqueName, statusCode, none, none, some originalName⟩,
           refMapping := refMapping',
           usedNames := st.usedNames ++ [uniqueName] }

/-- `normalizeExistingResponses` (transform.js:413-464). -/
def normalizeExistingResponses (responses scaffolding namingConfig : JVal) :
    Except String NormalizeResult := do
  if !(truthy responses) then return ⟨[], [], []⟩
  let responseNaming := jsOr (← jsGet scaffolding "responseNaming") (.obj [])
  let statusNames := jsOr (← jsGet responseNaming "statusNames") (.obj [])
  let convention := convStr namingConfig
  let st ← (jsEntries responses).foldlM
    (normalizeStep responseNaming statusNames convention) ⟨[], [], [], []⟩
  return ⟨st.normalized, st.mapping, st.refMapping⟩

/- ===================== detectApiStyle.js ===================== -/

/-- Static segments as computed by detectApiStyle.js:41-46 (trims each piece
and also drops pieces ending in a closing brace). -/
def detectStaticSegments (route : String) : List String :=
  ((splitOnChar '/' route).map jsTrim).filter (fun s =>
    !(s = "") && !(jsStartsWith s "\x7b") && !(jsEndsWith s "\x7d")
      && !(isVersionSeg s) && !(s = "api"))

/-- Regular-expression matching of configurable patterns is not interpreted by
this model; every theorem proved below evaluates the detector on an empty
`paths` collection, where the source returns before constructing any regex. -/
def jsRegexTest (_pattern _s : String) : Bool := false

/-- `computeVerbsAtEndRatio` (detectApiStyle.js:51-76). -/
def computeVerbsAtEndRatio (paths : JVal) (verbs : List String) : JQ :=
  if !(truthy paths) || (jsEntries paths).isEmpty then JQ.ofInt 0
  else if verbs.isEmpty then JQ.ofInt 0
  else
    let lowVerbs := verbs.map toLowerStr
    let counts := ((jsEntries paths).map (·.1)).foldl
      (fun (acc : Nat × Nat) route =>
        let segments := detectStaticSegments route
        if segments.isEmpty then acc
        else
          let last0 := toLowerStr (segments.getLastD "")
          let last := if jsStartsWith last0 ":" then String.mk last0.data.tail else last0
          if lowVerbs.contains last then (acc.1 + 1, acc.2 + 1) else (acc.1, acc.2 + 1))
      (0, 0)
    if counts.2 = 0 then JQ.ofInt 0 else ⟨counts.1, counts.2⟩

/-- `computePluralResourcesRatio` (detectApiStyle.js:81-101). -/
def computePluralResourcesRatio (paths : JVal) : JQ :=
  if !(truthy paths) || (jsEntries paths).isEmpty then JQ.ofInt 0
  else
    let counts := ((jsEntries paths).map (·.1)).foldl
      (fun (acc : Nat × Nat) route =>
        let segments := detectStaticSegments route
        if segments.isEmpty then acc
        else
          let resource := toLowerStr (segments.headD "")
          if jsEndsWith resource "s" && !(jsEndsWith resource "ss") then
            (acc.1 + 1, acc.2 + 1)
          else (acc.1, acc.2 + 1))
      (0, 0)
    if counts.2 = 0 then JQ.ofInt 0 else ⟨counts.1, counts.2⟩

/-- `computeCustomMethodsRatio` (detectApiStyle.js:106-121). -/
def computeCustomMethodsRatio (paths : JVal) (pattern : String) : JQ :=
  if !(truthy paths) || (jsEntries paths).isEmpty then JQ.ofInt 0
  else
    let counts := ((jsEntries paths).map (·.1)).foldl
      (fun (acc : Nat × Nat) route =>
        if jsRegexTest pattern route then (acc.1 + 1, acc.2 + 1) else (acc.1, acc.2 + 1))
      (0, 0)
    if counts.2 = 0 then JQ.ofInt 0 else ⟨counts.1, counts.2⟩

/-- `computeVerbsInPathRatio` (detectApiStyle.js:126-145). -/
def computeVerbsInPathRatio (paths : JVal) (verbPrefixes : List String) : JQ :=
  if !(truthy paths) || (jsEntries paths).isEmpty then JQ.ofInt 0
  else
    let verbs := verbPrefixes.map toLowerStr
    let counts := ((jsEntries paths).map (·.1)).foldl
      (fun (acc : Nat × Nat) route =>
        (detectStaticSegments route).foldl
          (fun (acc : Nat × Nat) seg =>
            let lower0 := toLowerStr seg
            let lower := if jsStartsWith lower0 ":" then String.mk lower0.data.tail else lower0
            if verbs.any (fun v => jsStartsWith lower v) then (acc.1 + 1, acc.2 + 1)
            else (acc.1, acc.2 + 1))
          acc)
      (0, 0)
    if counts.2 = 0 then JQ.ofInt 0 else ⟨counts.1, counts.2⟩

/-- `collectOperations` (detectApiStyle.js:24-35), reduced to the operation
values (paths and methods are not used by the one caller). -/
def collectOperations (paths : JVal) : List JVal :=
  (jsEntries paths).foldl (fun acc (p : String × JVal) =>
    match p.2 with
    | .obj fs => acc ++ (fs.filterMap (fun q =>
        if HTTP_METHODS.contains (toLowerStr q.1) then
          (match q.2 with
           | .obj _ => some q.2
           | .arr _ => some q.2
           | _ => none)
        else none))
    | _ => acc) []

/-- `computeOperationIdPatternRatio` (detectApiStyle.js:150-171). -/
def computeOperationIdPatternRatio (paths : JVal) (regexPatterns : JVal) : JQ :=
  if !(truthy paths) || (jsEntries paths).isEmpty then JQ.ofInt 0
  else
    match regexPatterns with
    | .arr pats =>
      if pats.isEmpty then JQ.ofInt 0
      else
        let ops := collectOperations paths
        if ops.isEmpty then JQ.ofInt 0
        else
          let counts := ops.foldl
            (fun (acc : Nat × Nat) op =>
              match jsGetOpt op "operationId" with
              | .str s =>
                if s = "" then acc
                else if pats.any (fun p => jsRegexTest (jvalToNameString p) s) then
                  (acc.1 + 1, acc.2 + 1)
                else (acc.1, acc.2 + 1)
              | _ => acc)
            (0, 0)
          if counts.2 = 0 then JQ.ofInt 0 else ⟨counts.1, counts.2⟩
    | _ => JQ.ofInt 0

/-- Numeric detection threshold after `??` (nullish coalescing).  JS would
coerce a non-numeric threshold inside the comparison; such configurations are
outside this model and are reported as errors. -/
def jqOfJValNum (v : JVal) (dflt : JQ) : Except String JQ :=
  match v with
  | .undef => .ok dflt
  | .null => .ok dflt
  | .num q => .ok q
  | _ => .error "NonNumericConfig"

def jvalStrArray (v : JVal) : Except String (List String) :=
  match v with
  | .arr xs => xs.mapM (fun x =>
      match x with
      | .str s => Except.ok s
      | _ => Except.error "TypeError")
  | _ => .error "TypeError"

/-- Heuristic check 1 of a style's `detection` block: verbs at the end of the
path (detectApiStyle.js:197-205); returns `(score contribution, checks run)`. -/
def scoreVerbsAtEnd (paths detection : JVal) : Except String (JQ × Nat) :=
  let z := JQ.ofInt 0
  let vae := jsGetOpt detection "verbsAtEnd"
  if truthy vae then do
    let verbs ← jvalStrArray (jsOr (jsGetOpt vae "values") (.arr []))
    let minR ← jqOfJValNum (jsGetOpt vae "minRatio") z
    let ratio := computeVerbsAtEndRatio paths verbs
    pure ((if JQ.leB minR ratio then ratio else z), 1)
  else pure (z, 0)

/-- Heuristic check 2: plural resources (detectApiStyle.js:208-215). -/
def scorePluralResources (paths detection : JVal) : Except String (JQ × Nat) :=
  let z := JQ.ofInt 0
  let pr := jsGetOpt detection "pluralResources"
  if truthy pr then do
    let minR ← jqOfJValNum (jsGetOpt pr "minRatio") z
    let ratio := computePluralResourcesRatio paths
    pure ((if JQ.leB minR ratio then ratio else z), 1)
  else pure (z, 0)

/-- Heuristic check 3: Google-style custom methods, with the 1.5 bonus
(detectApiStyle.js:218-226). -/
def scoreCustomMethods (paths detection : JVal) : Except String (JQ × Nat) :=
  let z := JQ.ofInt 0
  let cm := jsGetOpt detection "customMethods"
  if truthy cm then do
    let pattern := jvalToNameString (jsOr (jsGetOpt cm "pattern") (.str ":\\w+"))
    let minR ← jqOfJValNum (jsGetOpt cm "minRatio") z
    let ratio := computeCustomMethodsRatio paths pattern
    pure ((if JQ.leB minR ratio then JQ.mul ratio ⟨3, 2⟩ else z), 1)
  else pure (z, 0)

/-- Heuristic check 4: verbs inside the path, anti-REST
(detectApiStyle.js:229-237). -/
def scoreVerbsInPath (paths detection : JVal) : Except String (JQ × Nat) :=
  let z := JQ.ofInt 0
  let vip := jsGetOpt detection "verbsInPath"
  if truthy vip then do
    let maxR ← jqOfJValNum (jsGetOpt vip "maxRatio") (JQ.ofInt 1)
    let prefs ← (match jsGetOpt vip "verbPrefixes" with
                 | .undef => Except.ok ["get", "create", "update", "delete", "patch"]
                 | v => jvalStrArray v)
    let ratio := computeVerbsInPathRatio paths prefs
    pure ((if JQ.leB ratio maxR then JQ.sub (JQ.ofInt 1) ratio else z), 1)
  else pure (z, 0)

/-- Heuristic check 5: operationId patterns (detectApiStyle.js:240-248). -/
def scoreOperationIdPatterns (paths detection : JVal) : Except String (JQ × Nat) :=
  let z := JQ.ofInt 0
  let oip := jsGetOpt detection "operationIdPatterns"
  if truthy oip then do
    let minR ← jqOfJValNum (jsGetOpt detection "operationIdPatternsMinRatio") ⟨1, 5⟩
    let ratio := computeOperationIdPatternRatio paths oip
    pure ((if JQ.leB minR ratio then ratio else z), 1)
  else pure (z, 0)

/-- Score accumulation for one style's `detection` block
(detectApiStyle.js:193-251): returns `(score, checks)`. -/
def scoreStyle (paths : JVal) (detection : JVal) : Except String (JQ × Nat) := do
  let (s1, c1) ← scoreVerbsAtEnd paths detection
  let (s2, c2) ← scorePluralResources paths detection
  let (s3, c3) ← scoreCustomMethods paths detection
  let (s4, c4) ← scoreVerbsInPath paths detection
  let (s5, c5) ← scoreOperationIdPatterns paths detection
  pure (JQ.add (JQ.add (JQ.add (JQ.add s1 s2) s3) s4) s5, c1 + c2 + c3 + c4 + c5)

structure StyleScore where
  style : String
  score : JQ
  rawScore : JQ
  checks : Nat
deriving DecidableEq, Repr

structure DetectResult where
  style : String
  confidence : Int
  scores : List (String × Int)
deriving DecidableEq, Repr

/-- The comparator `(a, b) => b.score - a.score` as a stable "comes not after"
relation: descending by score, ties keep input order (JS sort is stable). -/
def styleLe (a b : StyleScore) : Bool := JQ.leB b.score a.score

def insertScored (x : StyleScore) : List StyleScore → List StyleScore
  | [] => [x]
  | y :: ys => if styleLe x y then x :: y :: ys else y :: insertScored x ys

/-- `results.sort((a, b) => b.score - a.score)` (detectApiStyle.js:266): a
stable sort (ES2019) descending by score, modelled as stable insertion sort
(an earlier element is inserted in front of every later element it ties). -/
def sortScored (l : List StyleScore) : List StyleScore := l.foldr insertScored []

/-- `detectApiStyle` (detectApiStyle.js:184-284). -/
def detectApiStyle (paths : JVal) (scaffoldings : JVal) : Except String DetectResult := do
  let results ← (jsEntries scaffoldings).foldlM
    (fun (acc : List StyleScore) (p : String × JVal) => do
      let detection ← jsGet p.2 "detection"
      if !(truthy detection) then return acc
      if (match jsGetOpt detection "enabled" with
          | .bool false => true
          | _ => false) then return acc
      let sc ← scoreStyle paths detection
      let normalized := if 0 < sc.2 then JQ.div sc.1 (JQ.ofInt sc.2) else JQ.ofInt 0
      return acc ++ [⟨p.1, normalized, sc.1, sc.2⟩])
    []
  if results.isEmpty then return ⟨"standard", 0, []⟩
  let sorted := sortScored results
  let top := sorted.headD ⟨"standard", JQ.ofInt 0, JQ.ofInt 0, 0⟩
  let scores := sorted.foldl
    (fun acc r => setAssoc acc r.style (JQ.round (JQ.mul r.score (JQ.ofInt 100)))) []
  let confidence : Int :=
    if 1 < sorted.length then
      min 100 (JQ.round (JQ.add (JQ.mul (JQ.sub top.score
        ((sorted.get? 1).getD ⟨"", JQ.ofInt 0, JQ.ofInt 0, 0⟩).score) (JQ.ofInt 100)) (JQ.ofInt 50)))
    else 100
  return ⟨if JQ.ltB (JQ.ofInt 0) top.score then top.style else "standard", confidence, scores⟩

/- ===================== literal global replace ===================== -/

/- Models `str.replace(new RegExp(escaped, 'g'), newRef)` where `escaped` is a
regex-escaped literal: non-overlapping left-to-right replacement of every
occurrence.  Fuel starts at the input length, which suffices because every
step consumes at least one character. -/
def replaceAllAux (target repl : List Char) : Nat → List Char → List Char
  | 0, l => l
  | fuel + 1, l =>
    match l with
    | [] => []
    | c :: t =>
      if !target.isEmpty && target.isPrefixOf (c :: t) then
        repl ++ replaceAllAux target repl fuel ((c :: t).drop target.length)
      else c :: replaceAllAux target repl fuel t

def replaceAllSub (s target repl : String) : String :=
  String.mk (replaceAllAux target.data repl.data s.data.length s.data)

/- ===================== JSON.parse ===================== -/

def hexVal (c : Char) : Option Nat :=
  if isAsciiDigit c then some (c.toNat - 48)
  else if 'a' ≤ c && c ≤ 'f' then some (c.toNat - 87)
  else if 'A' ≤ c && c ≤ 'F' then some (c.toNat - 55)
  else none

def parseStrAux : Nat → List Char → List Char → Option (String × List Char)
  | 0, _, _ => none
  | fuel + 1, acc, l =>
    match l with
    | [] => none
    | '"' :: r => some (String.mk acc.reverse, r)
    | '\\' :: e :: r =>
      if e = '"' then parseStrAux fuel ('"' :: acc) r
      else if e = '\\' then parseStrAux fuel ('\\' :: acc) r
      else if e = '/' then parseStrAux fuel ('/' :: acc) r
      else if e = 'n' then parseStrAux fuel ('\n' :: acc) r
      else if e = 't' then parseStrAux fuel ('\t' :: acc) r
      else if e = 'r' then parseStrAux fuel ('\r' :: acc) r
      else none
    | c :: r => parseStrAux fuel (c :: acc) r

def parseDigitsVal (l : List Char) : Option (Nat × List Char) :=
  let ds := l.takeWhile isAsciiDigit
  if ds.isEmpty then none
  else some (ds.foldl (fun acc c => 10 * acc + (c.toNat - 48)) 0, l.drop ds.length)

/-- JSON number parsing restricted to the integers this development
serializes (optionally with a fraction part); exponents are not needed. -/
def parseNum (l : List Char) : Option (JQ × List Char) :=
  let (neg, l1) := match l with
    | '-' :: r => (true, r)
    | r => (false, r)
  match parseDigitsVal l1 with
  | none => none
  | some (n, r1) =>
    match r1 with
    | '.' :: r2 =>
      match parseDigitsVal r2 with
      | none => none
      | some (f, r3) =>
        let k := (r2.takeWhile isAsciiDigit).length
        let den : Int := (10 : Int) ^ k
        let num : Int := (n : Int) * den + (f : Int)
        some (⟨if neg then -num else num, den⟩, r3)
    | _ => some (⟨if neg then -(n : Int) else (n : Int), 1⟩, r1)

mutual
def parseJVal : Nat → List Char → Option (JVal × List Char)
  | 0, _ => none
  | fuel + 1, l =>
    match l.dropWhile isJsWs with
    | 'n' :: 'u' :: 'l' :: 'l' :: r => some (.null, r)
    | 't' :: 'r' :: 'u' :: 'e' :: r => some (.bool true, r)
    | 'f' :: 'a' :: 'l' :: 's' :: 'e' :: r => some (.bool false, r)
    | '"' :: r => (parseStrAux (r.length + 1) [] r).map (fun p => (.str p.1, p.2))
    | '[' :: r =>
      (match (r.dropWhile isJsWs) with
       | ']' :: r2 => some (.arr [], r2)
       | _ => (parseArrElems fuel r).map (fun p => (.arr p.1, p.2)))
    | '\x7b' :: r =>
      (match (r.dropWhile isJsWs) with
       | '\x7d' :: r2 => some (.obj [], r2)
       | _ => (parseObjFields fuel r).map (fun p => (.obj p.1, p.2)))
    | r => (parseNum r).map (fun p => (.num p.1, p.2))
  termination_by structural fuel _l => fuel

def parseArrElems : Nat → List Char → Option (List JVal × List Char)
  | 0, _ => none
  | fuel + 1, l => do
    let (v, r1) ← parseJVal fuel l
    match r1.dropWhile isJsWs with
    | ',' :: r2 => (parseArrElems fuel r2).map (fun p => (v :: p.1, p.2))
    | ']' :: r2 => some ([v], r2)
    | _ => none
  termination_by structural fuel _l => fuel

def parseObjFields : Nat → List Char → Option (List (String × JVal) × List Char)
  | 0, _ => none
  | fuel + 1, l => do
    match l.dropWhile isJsWs with
    | '"' :: r => do
      let (k, r1) ← parseStrAux (r.length + 1) [] r
      match r1.dropWhile isJsWs with
      | ':' :: r2 => do
        let (v, r3) ← parseJVal fuel r2
        match r3.dropWhile isJsWs with
        | ',' :: r4 => (parseObjFields fuel r4).map (fun p => ((k, v) :: p.1, p.2))
        | '\x7d' :: r4 => some ([(k, v)], r4)
        | _ => none
      | _ => none
    | _ => none
  termination_by structural fuel _l => fuel
end

def parseJson (s : String) : Option JVal :=
  match parseJVal (s.data.length + 1) s.data with
  | some (v, rest) => if (rest.dropWhile isJsWs).isEmpty then some v else none
  | none => none

/- ===================== transform.js: schema mapping and transform ===================== -/

structure SchemaEntry where
  folder : JVal
  fileName : String
  schemaType : String
  original : String
deriving Repr

structure ReqBodyEntry where
  folder : String
  fileName : String
  original : String
deriving DecidableEq, Repr

/-- `buildSchemaMapping` (transform.js:119-156).  `schemaType` is the source's
`type` field (renamed: `type` is reserved in Lean). -/
def buildSchemaMapping (schemas scaffolding namingConfig : JVal) :
    Except String (List (String × SchemaEntry)) := do
  if !(truthy schemas) then return []
  let useClassification :=
    match (← jsGet scaffolding "schemaClassification") with
    | .bool false => false
    | _ => true
  let folders := jsOr (← jsGet scaffolding "folders") (.obj [])
  let sufs := jsOr (← jsGet scaffolding "suffixes") (.obj [])
  let convention := convStr namingConfig
  return (jsEntries schemas).foldl (fun acc (p : String × JVal) =>
    let name := p.1
    let schemaType := classifySchema p.2
    let folderV := jsGetOpt folders schemaType
    let fs :=
      if useClassification && truthy folderV then
        (folderV, jvalToNameString (jsOr (jsGetOpt sufs schemaType) (.str "")))
      else (JVal.str "schemas", jvalToNameString (jsOr (jsGetOpt sufs "schemas") (.str "")))
    let fn0 := applyNamingConvention name convention
    let fileName := if fs.2 ≠ "" && !(jsEndsWith fn0 fs.2) then fn0 ++ fs.2 else fn0
    setAssoc acc name ⟨fs.1, fileName, schemaType, name⟩) []

/-- `getScaffolding` (transform.js:69-78); the scaffolding table itself comes
from the external config loader (spec §6), so it is a parameter here. -/
def getScaffolding (name : String) (scaffoldings : JVal) : Except String JVal := do
  let sc ← jsGet scaffoldings name
  if !(truthy sc) then Except.error "ScaffoldingNotFound"
  else pure sc

/-- `{ ...a, ...b }` and `Object.assign(a, b)` key semantics: keys of `a` keep
their positions, `b` overwrites values and appends new keys. -/
def spreadMerge {α : Type} (a b : List (String × α)) : List (String × α) :=
  b.foldl (fun acc p => setAssoc acc p.1 p.2) a

def jsObjectAssign (target source : JVal) : JVal :=
  match target, source with
  | .obj fs, .obj gs => .obj (spreadMerge fs gs)
  | .arr xs, .arr ys => .arr (ys ++ xs.drop ys.length)
  | t, _ => t

structure TransformOptions where
  scaffolding : JVal
  style : JVal
  namingConfig : JVal

structure TransformResult where
  openapi : JVal
  schemaMapping : List (String × SchemaEntry)
  responseMapping : List (String × RespEntry)
  requestBodyMapping : List (String × ReqBodyEntry)
  detectedStyle : String
  statsSchemasClassified : Nat
  statsResponsesExtracted : Nat
  statsResponsesNormalized : Nat
  statsRequestBodiesNormalized : Nat

/-- `transform` (transform.js:480-573).  The scaffolding table loaded by
`loadScaffoldings()` from the process-wide configuration is passed explicitly
(the config loader is an external collaborator per spec §6). -/
def transform (openapi : JVal) (options : TransformOptions) (scaffoldings : JVal) :
    Except String TransformResult := do
  let scaffoldingName := jvalToNameString (jsOr options.scaffolding (.str "standard"))
  let scaffolding ← getScaffolding scaffoldingName scaffoldings
  let namingConfig := jsOr options.namingConfig
    (.obj [("components", .str "PascalCase"), ("paths", .str "kebab-case")])
  let detectedStyle ←
    if truthy options.style then pure (jvalToNameString options.style)
    else do
      let p ← jsGet openapi "paths"
      let d ← detectApiStyle p scaffoldings
      pure d.style
  let transformed0 ← jsonCleanTop openapi
  let comps ← jsGet transformed0 "components"
  let schemaMapping ← buildSchemaMapping (jsGetOpt comps "schemas") scaffolding namingConfig
  let norm ← normalizeExistingResponses (jsGetOpt comps "responses") scaffolding namingConfig
  let transformed1 ←
    if norm.refMapping.isEmpty then pure transformed0
    else do
      let str ← (match jsonStringify transformed0 with
                 | some s => Except.ok s
                 | none => Except.error "TypeError")
      let str2 := norm.refMapping.foldl (fun s (pr : String × String) =>
        replaceAllSub s pr.1 pr.2) str
      let parsed ← (match parseJson str2 with
                    | some v => Except.ok v
                    | none => Except.error "SyntaxError")
      pure (jsObjectAssign transformed0 parsed)
  let pathsV ← jsGet transformed1 "paths"
  let ext ← extractInlineResponses pathsV scaffolding detectedStyle namingConfig
  let transformed2 ← jsWriteKey transformed1 "paths" ext.transformedPaths
  let compsV ← jsGet transformed2 "components"
  let transformed3 ←
    if !(truthy compsV) then jsWriteKey transformed2 "components" (.obj [])
    else pure transformed2
  let comps2 ← jsGet transformed3 "components"
  let comps3 ← jsWriteKey comps2 "responses"
    (.obj (spreadMerge norm.normalizedResponses ext.extractedResponses))
  let transformed4 ← jsWriteKey transformed3 "components" comps3
  let responseMapping := spreadMerge norm.responseMapping ext.responseMapping
  let rbV := jsGetOpt (jsGetOpt transformed4 "components") "requestBodies"
  let requestBodyMapping :=
    if truthy rbV then
      (jsEntries rbV).foldl (fun acc (p : String × JVal) =>
        setAssoc acc p.1 ⟨"requestBodies",
          (if jsEndsWith p.1 "Request" then p.1 else p.1 ++ "Request"), p.1⟩) []
    else []
  return ⟨transformed4, schemaMapping, responseMapping, requestBodyMapping, detectedStyle,
    schemaMapping.length, ext.extractedResponses.length, norm.responseMapping.length,
    requestBodyMapping.length⟩

/- ===================== fixRefs.js: reference rewriting ===================== -/

def isAsciiAlpha (c : Char) : Bool := isAsciiLower c || isAsciiUpper c

structure FileTarget where
  folder : String
  fileName : String
deriving DecidableEq, Repr

/-- `generateFileName` (fixRefs.js:44-56). -/
def generateFileName (itemName componentType : String) (namingConfig affixesConfig : JVal) :
    String :=
  let fn0 := applyNamingConvention itemName (convStr namingConfig)
  if truthy (jsGetOpt affixesConfig "enabled") then
    let pre := jvalToNameString
      (jsOr (jsGetOpt (jsGetOpt affixesConfig "prefixes") componentType) (.str ""))
    let suf := jvalToNameString
      (jsOr (jsGetOpt (jsGetOpt affixesConfig "suffixes") componentType) (.str ""))
    let fn1 := if pre ≠ "" then pre ++ fn0 else fn0
    if suf ≠ "" && !(jsEndsWith fn1 suf) then fn1 ++ suf else fn1
  else fn0

/-- `getRelativePath` (fixRefs.js:58-63). -/
def getRelativePath (fromType toFolder : String) : String :=
  if fromType = "paths" then "../components/" ++ toFolder
  else "../" ++ toFolder

/-- `normalizeKey` (fixRefs.js:69-71). -/
def normalizeKey (s : String) : String :=
  String.mk (((s.data.filter (fun c => !(isJsWs c))).filter
    (fun c => !(c = '_' || c = '-'))).map asciiToLower)

/-- `resolveFromMapping` (fixRefs.js:82-91): exact lookup first, then the
case-insensitive index (whose `Map.set` building makes the last normalized
match win). -/
def resolveFromMapping (name : String) (mapping : Option (List (String × FileTarget))) :
    Option FileTarget :=
  match mapping with
  | none => none
  | some m =>
    match lookupAssoc m name with
    | some t => some t
    | none =>
      m.foldl (fun acc p => if normalizeKey p.1 = normalizeKey name then some p.2 else acc) none

structure FixRefsCfg where
  mainFileName : String
  naming : JVal
  affixes : JVal

/-- Replacement text for one `#/components/<kind>/<name>` reference in a
component fragment (fixRefs.js:110-141), quotes included. -/
def refReplacement (fromFolder : String) (cfg : FixRefsCfg)
    (schemaMapping responseMapping : Option (List (String × FileTarget)))
    (targetType name : String) : String :=
  if targetType = "schemas" then
    match resolveFromMapping name schemaMapping with
    | some t => "\"" ++ getRelativePath fromFolder t.folder ++ "/" ++ t.fileName ++ ".yaml\""
    | none =>
      let fn := generateFileName name "schemas" cfg.naming cfg.affixes
      "\"" ++ getRelativePath fromFolder "schemas" ++ "/" ++ fn ++ ".yaml\""
  else if targetType = "responses" then
    match resolveFromMapping name responseMapping with
    | some t =>
      "\"" ++ getRelativePath fromFolder (if t.folder = "" then "responses" else t.folder)
        ++ "/" ++ t.fileName ++ ".yaml\""
    | none => "\"" ++ getRelativePath fromFolder "responses" ++ "/" ++ name ++ ".yaml\""
  else
    let fn := generateFileName name targetType cfg.naming cfg.affixes
    "\"" ++ getRelativePath fromFolder targetType ++ "/" ++ fn ++ ".yaml\""

/- `transformPathRefs` (fixRefs.js:97-102): rewrite every quoted
`#/components/<rest>` to point into the entrypoint file.  The scan advances
one character on a failed match, like the regex engine. -/
def transformPathRefsAux (mainFileName : String) : Nat → List Char → List Char
  | 0, l => l
  | _fuel + 1, [] => []
  | fuel + 1, c :: t =>
    if c = '"' && ("#/components/".data.isPrefixOf t) then
      let rest := t.drop 13
      let nameChars := rest.takeWhile (fun d => !(d = '"'))
      if !nameChars.isEmpty &&
          (match rest.drop nameChars.length with
           | '"' :: _ => true
           | _ => false) then
        ("\"../" ++ mainFileName ++ ".yaml#/components/").data ++ nameChars ++
          '"' :: transformPathRefsAux mainFileName fuel (rest.drop (nameChars.length + 1))
      else c :: transformPathRefsAux mainFileName fuel t
    else c :: transformPathRefsAux mainFileName fuel t

def transformPathRefsStr (mainFileName s : String) : String :=
  String.mk (transformPathRefsAux mainFileName s.data.length s.data)

/- `transformRefs` (fixRefs.js:104-142): rewrite every
`"#/components/<kind>/<name>"` occurrence (kind alphabetic and nonempty, name
nonempty without quotes) using the mapping tables. -/
def transformRefsAux (fromFolder : String) (cfg : FixRefsCfg)
    (schemaMapping responseMapping : Option (List (String × FileTarget))) :
    Nat → List Char → List Char
  | 0, l => l
  | _fuel + 1, [] => []
  | fuel + 1, c :: t =>
    if c = '"' && ("#/components/".data.isPrefixOf t) then
      let rest := t.drop 13
      let kindChars := rest.takeWhile isAsciiAlpha
      let rest2 := rest.drop kindChars.length
      match rest2 with
      | '/' :: rest3 =>
        let nameChars := rest3.takeWhile (fun d => !(d = '"'))
        if !kindChars.isEmpty && !nameChars.isEmpty &&
            (match rest3.drop nameChars.length with
             | '"' :: _ => true
             | _ => false) then
          (refReplacement fromFolder cfg schemaMapping responseMapping
            (String.mk kindChars) (String.mk nameChars)).data ++
            transformRefsAux fromFolder cfg schemaMapping responseMapping fuel
              (rest3.drop (nameChars.length + 1))
        else c :: transformRefsAux fromFolder cfg schemaMapping responseMapping fuel t
      | _ => c :: transformRefsAux fromFolder cfg schemaMapping responseMapping fuel t
    else c :: transformRefsAux fromFolder cfg schemaMapping responseMapping fuel t

def transformRefsStr (fromFolder : String) (cfg : FixRefsCfg)
    (schemaMapping responseMapping : Option (List (String × FileTarget))) (s : String) :
    String :=
  String.mk (transformRefsAux fromFolder cfg schemaMapping responseMapping s.data.length s.data)

/- ===================== heap of runtime objects ===================== -/

/-- One heap node: a runtime value whose arrays and objects hold addresses of
child nodes.  Unlike `JVal`, heap graphs can be circular, which is what lets
the model express `JSON.stringify` failing on circular structures and lets the
frame-effect theorem talk about the caller's object graph. -/
inductive HNode where
  | null
  | bool (b : Bool)
  | num (q : JQ)
  | str (s : String)
  | arr (elems : List Nat)
  | obj (fields : List (String × Nat))
deriving DecidableEq, Repr

structure Heap where
  nodes : List (Nat × HNode)
  next : Nat
deriving Repr

def lookupNode (h : Heap) (a : Nat) : Option HNode :=
  ((h.nodes.find? (fun p => p.1 = a)).map (·.2))

def childAddrs : HNode → List Nat
  | .arr xs => xs
  | .obj fs => fs.map (·.2)
  | _ => []

/-- Well-formed heap: every stored child address is below `next`. -/
def heapWF (h : Heap) : Prop :=
  ∀ p ∈ h.nodes, ∀ b ∈ childAddrs p.2, b < h.next

/-- Reading the JSON value rooted at an address; `fuel` bounds the path depth
(`h.nodes.length + 1` suffices for every acyclic graph). -/
def decodeH (h : Heap) : Nat → Nat → Option JVal
  | _, 0 => none
  | a, fuel + 1 =>
    match lookupNode h a with
    | none => none
    | some .null => some .null
    | some (.bool b) => some (.bool b)
    | some (.num q) => some (.num q)
    | some (.str s) => some (.str s)
    | some (.arr xs) => (xs.mapM (fun b => decodeH h b fuel)).map .arr
    | some (.obj fs) =>
      (fs.mapM (fun p => (decodeH h p.2 fuel).map (fun v => (p.1, v)))).map .obj

def pushNode (h : Heap) (nd : HNode) : Heap × Nat :=
  (⟨h.nodes ++ [(h.next, nd)], h.next + 1⟩, h.next)

/- Fresh allocation of a JSON value (the result of `JSON.parse`): appends new
nodes at addresses `≥ h.next` and never touches existing entries.
`JVal.undef` cannot occur in a parsed tree; it is encoded as `null`. -/
mutual
def allocJ : Heap → JVal → Heap × Nat
  | h, .undef => pushNode h .null
  | h, .null => pushNode h .null
  | h, .bool b => pushNode h (.bool b)
  | h, .num q => pushNode h (.num q)
  | h, .str s => pushNode h (.str s)
  | h, .arr xs =>
    let r := allocList h xs
    pushNode r.1 (.arr r.2)
  | h, .obj fs =>
    let r := allocFields h fs
    pushNode r.1 (.obj r.2)

def allocList : Heap → List JVal → Heap × List Nat
  | h, [] => (h, [])
  | h, x :: t =>
    let r := allocJ h x
    let r2 := allocList r.1 t
    (r2.1, r.2 :: r2.2)

def allocFields : Heap → List (String × JVal) → Heap × List (String × Nat)
  | h, [] => (h, [])
  | h, (k, v) :: t =>
    let r := allocJ h v
    let r2 := allocFields r.1 t
    (r2.1, (k, r.2) :: r2.2)
end

/- `JSON.stringify` on the heap, with the cycle detection JS performs on
objects and arrays: serializing an object or array that is an ancestor of
itself fails (`none` models the thrown `TypeError: Converting circular
structure to JSON`).  `fuel = h.nodes.length + 1` suffices for every acyclic
graph. -/
def stringifyH (h : Heap) : Nat → List Nat → Nat → Option String
  | _, _, 0 => none
  | a, visited, fuel + 1 =>
    match lookupNode h a with
    | none => none
    | some .null => some "null"
    | some (.bool true) => some "true"
    | some (.bool false) => some "false"
    | some (.num q) => some (jqToJson q)
    | some (.str s) => some (jsonQuote s)
    | some (.arr xs) =>
      if visited.contains a then none
      else (xs.mapM (fun b => stringifyH h b (a :: visited) fuel)).map
        (fun parts => "[" ++ String.intercalate "," parts ++ "]")
    | some (.obj fs) =>
      if visited.contains a then none
      else (fs.mapM (fun p => (stringifyH h p.2 (a :: visited) fuel).map
          (fun s => jsonQuote p.1 ++ ":" ++ s))).map
        (fun parts => "\x7b" ++ String.intercalate "," parts ++ "\x7d")

/-- `fixRefs` (fixRefs.js:163-204) over the heap.  Primitive fragments are
returned as-is; if serialization fails (circular structure) or parsing the
rewritten text fails, the original fragment is returned unchanged; otherwise
the rewritten fragment is a freshly parsed tree. -/
def fixRefsH (h : Heap) (contentAddr : Nat) (componentType : String) (config : JVal)
    (schemaMapping responseMapping : Option (List (String × FileTarget))) : Heap × Nat :=
  match lookupNode h contentAddr with
  | none => (h, contentAddr)
  | some (.null) => (h, contentAddr)
  | some (.bool _) => (h, contentAddr)
  | some (.num _) => (h, contentAddr)
  | some (.str _) => (h, contentAddr)
  | some _ =>
    let cfg : FixRefsCfg :=
      ⟨jvalToNameString (jsOr (jsGetOpt config "mainFileName") (.str "main")),
       jsOr (jsGetOpt config "naming") (.obj []),
       jsOr (jsGetOpt config "affixes") (.obj [])⟩
    match stringifyH h contentAddr [] (h.nodes.length + 1) with
    | none => (h, contentAddr)
    | some s =>
      let s2 := if componentType = "paths" then transformPathRefsStr cfg.mainFileName s
                else transformRefsStr componentType cfg schemaMapping responseMapping s
      match parseJson s2 with
      | none => (h, contentAddr)
      | some v => allocJ h v

/-- `transform` at the heap level.  The source deep-clones the document with a
JSON round-trip (transform.js:488) into a tree that shares no node with the
caller's graph, and the identifier `openapi` is never used after that line;
every in-place write of the pipeline therefore lands in the fresh tree.  At
the heap level the call is: decode the caller's graph, run the pure pipeline,
allocate the result at fresh addresses.  (On a thrown error the source may
have allocated an unreachable clone; the returned heap omits such garbage,
which no theorem below observes.) -/
def transformH (h : Heap) (docAddr : Nat) (options : TransformOptions)
    (scaffoldings : JVal) : Heap × Except String Nat :=
  match decodeH h docAddr (h.nodes.length + 1) with
  | none => (h, .error "CircularOrUndecodableDocument")
  | some v =>
    match transform v options scaffoldings with
    | .error e => (h, .error e)
    | .ok res =>
      let r := allocJ h res.openapi
      (r.1, .ok r.2)

/-- The responseMapping invariant: association keys are distinct, every entry
sits in the `responses` folder, and its fileName is its own key. -/
def respMapInv (m : List (String × RespEntry)) : Prop :=
  (m.map (·.1)).Nodup ∧ ∀ p ∈ m, p.2.folder = "responses" ∧ p.2.fileName = p.1

/- ===================== word-list helpers used by the naming theorems ===================== -/

/-- Non-final tokens have length at least 2. -/
def nonFinalLong : List (List Char) → Bool
  | [] => true
  | [_] => true
  | w :: r :: t => decide (2 ≤ w.length) && nonFinalLong (r :: t)

/-- Joining word lists with single spaces (the shape `toWords` sees after the
camel-case split of a PascalCase name). -/
def spJoin : List (List Char) → List Char
  | [] => []
  | [w] => w
  | w :: r :: t => w ++ ' ' :: spJoin (r :: t)

theorem digitChar10_toNat {d : Nat} (hd : d < 10) : (digitChar10 d).toNat = 48 + d := by
  unfold digitChar10
  interval_cases d <;> decide

theorem natUnrepr10_natRepr10 (n : Nat) : natUnrepr10 (natRepr10 n) = n := by
  unfold natRepr10 natUnrepr10
  by_cases h : n = 0
  · subst h
    decide
  · simp only [h, if_false]
    have hmap : (((Nat.digits 10 n).map digitChar10).reverse).map (fun c => c.toNat - 48)
        = ((Nat.digits 10 n).reverse) := by
      rw [← List.map_reverse, List.map_map]
      have : ∀ d ∈ (Nat.digits 10 n).reverse,
          ((fun c => c.toNat - 48) ∘ digitChar10) d = id d := by
        intro d hd
        have hlt : d < 10 := Nat.digits_lt_base (by norm_num) (List.mem_reverse.mp hd)
        simp [Function.comp, digitChar10_toNat hlt]
      rw [List.map_congr_left this, List.map_id]
    rw [hmap, List.reverse_reverse, Nat.ofDigits_digits]

theorem natRepr10_injective : Function.Injective natRepr10 := by
  intro a b hab
  have := congrArg natUnrepr10 hab
  rwa [natUnrepr10_natRepr10, natUnrepr10_natRepr10] at this

/- ===================== C5: schema classification ===================== -/

/-- C5: `classifySchema` is total and respects the fixed priority order: every
input maps to exactly one of the five types; a truthy `enum` field wins over
everything (so enum+array and enum+allOf classify as enum); `type: array`
wins over composites when no truthy `enum` is present; null and non-object
(in the `typeof` sense) inputs classify as `objects`. -/
theorem classifySchema_total_priority :
    (∀ v : JVal, classifySchema v ∈ ["enums", "arrays", "composites", "objects", "properties"]) ∧
    (∀ v : JVal, truthy (jsGetOpt v "enum") = true → classifySchema v = "enums") ∧
    (∀ v : JVal, truthy (jsGetOpt v "enum") = false →
      jsStrictEqStr (jsGetOpt v "type") "array" = true → classifySchema v = "arrays") ∧
    (∀ v : JVal, truthy v = false ∨ isJsObject v = false → classifySchema v = "objects") := by
  refine ⟨?_, ?_, ?_, ?_⟩
  · intro v
    unfold classifySchema
    split
    · decide
    · split
      · decide
      · split
        · decide
        · split
          · decide
          · split
            · decide
            · split
              · decide
              · decide
  · intro v h
    have hobj : isJsObject v = true := by
      cases v <;> first | rfl | simp_all [jsGetOpt, truthy]
    have htr : truthy v = true := by
      cases v <;> first | rfl | simp_all [jsGetOpt, truthy]
    unfold classifySchema
    simp [h, hobj, htr]
  · intro v h1 h2
    have hobj : isJsObject v = true := by
      cases v <;> first | rfl | simp_all [jsGetOpt, jsStrictEqStr]
    have htr : truthy v = true := by
      cases v <;> first | rfl | simp_all [jsGetOpt, jsStrictEqStr, truthy]
    unfold classifySchema
    simp [h1, h2, hobj, htr]
  · intro v h
    unfold classifySchema
    rcases h with h | h <;> simp [h]

/-- C5 witness: the theorem applied at concrete schemas: enum+array is enum,
array+allOf (no enum) is array, null is objects. -/
theorem classifySchema_total_priority_witness :
    classifySchema (JVal.obj [("enum", .arr [.str "a"]), ("type", .str "array")]) = "enums" ∧
    classifySchema (JVal.obj [("enum", .arr []), ("allOf", .arr [])]) = "enums" ∧
    classifySchema (JVal.obj [("type", .str "array"), ("allOf", .arr [])]) = "arrays" ∧
    classifySchema JVal.null = "objects" :=
  ⟨classifySchema_total_priority.2.1 _ (by decide),
   classifySchema_total_priority.2.1 _ (by decide),
   classifySchema_total_priority.2.2.1 _ (by decide) (by decide),
   classifySchema_total_priority.2.2.2 _ (Or.inl (by decide))⟩

/- ===================== C2: RPC-style smart response name ===================== -/

/-- C2 counterexample: for the operation at `/employees/{employeeId}/promote`,
method POST, status 200, style `rpc`, no `operationId` and an empty
`statusNames` table, `buildSmartResponseName` does NOT return
`PromoteEmployeeResponse` (the claim's expected value): the entity is inferred
from the *last* static segment `promote`, not from `employees`. -/
theorem buildSmartResponseName_promote_not_claimed :
    buildSmartResponseName "200" "/employees/{employeeId}/promote" "post"
      (JVal.obj []) "rpc" (JVal.obj []) = Except.ok "PromotePromoteResponse" ∧
    "PromotePromoteResponse" ≠ "PromoteEmployeeResponse" :=
  ⟨rfl, by decide⟩

/-- C2 (amended): the generated name is `PromotePromoteResponse` — the action
`Promote` comes from the trailing known action verb, and the entity is also
`Promote` because `inferEntityFromPath` takes the last non-parameter segment
(`promote`), not the resource segment `employees`. -/
theorem buildSmartResponseName_promote_rpc :
    buildSmartResponseName "200" "/employees/{employeeId}/promote" "post"
      (JVal.obj []) "rpc" (JVal.obj []) = Except.ok "PromotePromoteResponse" := rfl

/- ===================== C1: inline response dedup key ===================== -/

/-- C1 counterexample: the dedup key for content-bearing non-2xx responses is
the content signature *alone* (transform.js:355), not the pair
(status code, signature): a 404 at `/a` and a 500 at `/b` with identical
content signatures end up sharing the single generated component
`Response404` — the 500 is rewritten to a `$ref` to the 404's name, so two
responses with different status codes ARE assigned the same generated name. -/
theorem extract_dedup_shares_name_across_statuses :
    ((extractInlineResponses
        (JVal.obj [("/a", .obj [("get", .obj [("responses", .obj [("404",
            .obj [("description", .str "x"),
                  ("content", .obj [("application/json",
                    .obj [("schema", .obj [("type", .str "string")])])])])])])]),
                   ("/b", .obj [("get", .obj [("responses", .obj [("500",
            .obj [("description", .str "y"),
                  ("content", .obj [("application/json",
                    .obj [("schema", .obj [("type", .str "string")])])])])])])])])
        (JVal.obj []) "restful" (JVal.obj [])).map
      (fun res =>
        (jsGetOpt (jsGetOpt (jsGetOpt (jsGetOpt res.transformedPaths "/a") "get") "responses") "404",
         jsGetOpt (jsGetOpt (jsGetOpt (jsGetOpt res.transformedPaths "/b") "get") "responses") "500",
         res.responseMapping.map (fun p => p.1))))
      = Except.ok (refObjResp "Response404", refObjResp "Response404", ["Response404"]) := rfl

/-- C1 (amended): for non-2xx inline responses (with the default
`dedupeErrors`), deduplication keys on the content signature alone: two inline
responses with the same status code and identical content signatures but
different description texts extract under the same generated name, and two
responses with *different* status codes also share a single generated
component whenever their content signatures coincide (the status code enters
the key only for simple, content-free responses).  Stated for a two-operation
document with arbitrary non-2xx statuses, descriptions and schema value. -/
theorem extract_dedup_by_content_signature (s1 s2 d1 d2 : String) (sch : JVal)
    (hs1 : is2xxStatus s1 = false) (hs2 : is2xxStatus s2 = false) :
    ((extractInlineResponses
        (JVal.obj [("/a", .obj [("get", .obj [("responses", .obj [(s1,
            .obj [("description", .str d1),
                  ("content", .obj [("application/json", .obj [("schema", sch)])])])])])]),
                   ("/b", .obj [("get", .obj [("responses", .obj [(s2,
            .obj [("description", .str d2),
                  ("content", .obj [("application/json", .obj [("schema", sch)])])])])])])])
        (JVal.obj []) "restful" (JVal.obj [])).map
      (fun res =>
        (jsGetOpt (jsGetOpt (jsGetOpt (jsGetOpt res.transformedPaths "/a") "get") "responses") s1,
         jsGetOpt (jsGetOpt (jsGetOpt (jsGetOpt res.transformedPaths "/b") "get") "responses") s2,
         res.responseMapping.map (fun p => p.1))))
      = Except.ok (refObjResp ("Response" ++ s1), refObjResp ("Response" ++ s1),
          ["Response" ++ s1]) := by
  simp +decide [String.intercalate, extractInlineResponses, jsonCleanTop, jsonClean,
    jsonCleanFields, jsonCleanList,
    extractRouteStep, extractOpStep, extractRespStep, jsEntries, jsGetOpt, jsGet, jsOr,
    truthy, lookupField, getContentSignature, buildSigFields, jsonStrAux, jsonStrFields,
    jsonStrArr, allowedKey, jvalToNameString, ensureUnique, jsSetPath2, jsWriteKey,
    setField, setAssoc, lookupAssoc, refObjResp, hs1, hs2, List.find?, List.foldlM,
    Except.map, Except.bind, Bind.bind, Pure.pure, Except.pure, HTTP_METHODS,
    toLowerStr, asciiToLower, isAsciiUpper,
    jsonQuote, jsonEscapeChar, List.contains, stripResponseSuffix]

/-- C1 witness: the amended dedup theorem applied at statuses 404/500 with
different descriptions and a concrete schema. -/
theorem extract_dedup_by_content_signature_witness :
    is2xxStatus "404" = false ∧ is2xxStatus "500" = false ∧
    ((extractInlineResponses
        (JVal.obj [("/a", .obj [("get", .obj [("responses", .obj [("404",
            .obj [("description", .str "Not found"),
                  ("content", .obj [("application/json",
                    .obj [("schema", .obj [("type", .str "integer")])])])])])])]),
                   ("/b", .obj [("get", .obj [("responses", .obj [("500",
            .obj [("description", .str "Server error"),
                  ("content", .obj [("application/json",
                    .obj [("schema", .obj [("type", .str "integer")])])])])])])])])
        (JVal.obj []) "restful" (JVal.obj [])).map
      (fun res =>
        (jsGetOpt (jsGetOpt (jsGetOpt (jsGetOpt res.transformedPaths "/a") "get") "responses") "404",
         jsGetOpt (jsGetOpt (jsGetOpt (jsGetOpt res.transformedPaths "/b") "get") "responses") "500",
         res.responseMapping.map (fun p => p.1))))
      = Except.ok (refObjResp ("Response" ++ "404"), refObjResp ("Response" ++ "404"),
          ["Response" ++ "404"]) :=
  ⟨by decide, by decide,
   extract_dedup_by_content_signature "404" "500" "Not found" "Server error"
     (.obj [("type", .str "integer")]) (by decide) (by decide)⟩

/- ===================== C4: error behaviour of the extractor ===================== -/

/-- C4 counterexample: the extractor DOES raise for malformed input: a `null`
response entry hits `response.$ref` (transform.js:349, TypeError), and an
undefined `paths` value makes the clone `JSON.parse(JSON.stringify(paths))`
(transform.js:336) throw a SyntaxError. -/
theorem extract_throws_on_malformed :
    extractInlineResponses
      (JVal.obj [("/a", .obj [("get", .obj [("responses", .obj [("200", JVal.null)])])])])
      (JVal.obj []) "restful" (JVal.obj []) = .error "TypeError" ∧
    extractInlineResponses JVal.undef (JVal.obj []) "restful" (JVal.obj [])
      = .error "SyntaxError" := ⟨rfl, rfl⟩

theorem truthy_obj (fs : List (String × JVal)) : truthy (.obj fs) = true := rfl

theorem truthy_undef_eq : truthy .undef = false := rfl

theorem jsOr_of_undef (b : JVal) : jsOr .undef b = b := rfl

theorem jsGet_null_err (k : String) : jsGet .null k = .error "TypeError" := rfl

theorem jsGet_undef_err (k : String) : jsGet .undef k = .error "TypeError" := rfl

theorem jsGet_obj (fs : List (String × JVal)) (k : String) :
    jsGet (.obj fs) k = .ok ((lookupField fs k).getD .undef) := rfl

theorem foldlM_ok_of_step_ok {α β : Type} (f : β → α → Except String β) (l : List α)
    (h : ∀ st a, a ∈ l → ∃ st', f st a = .ok st') :
    ∀ st, ∃ stf, l.foldlM f st = .ok stf := by
  induction l with
  | nil => intro st; exact ⟨st, rfl⟩
  | cons x t ih =>
    intro st
    obtain ⟨st1, h1⟩ := h st x (List.mem_cons_self x t)
    obtain ⟨stf, hf⟩ := ih (fun st a ha => h st a (List.mem_cons_of_mem x ha)) st1
    exact ⟨stf, by simp [List.foldlM, h1, hf, Bind.bind, Except.bind]⟩

theorem normalizeStep_ok (responseNaming statusNames : JVal) (convention : String)
    (hen : truthy (jsGetOpt responseNaming "enabled") = false)
    (st : NormalizeState) (p : String × JVal) :
    ∃ st', normalizeStep responseNaming statusNames convention st p = .ok st' := by
  unfold normalizeStep
  simp [hen, Bind.bind, Except.bind, Pure.pure, Except.pure]

/-- C4 (amended): with the `responseNaming` configuration absent (the claim's
degraded-configuration scenario), (1) `normalizeExistingResponses` completes
without raising for *every* responses value, and (2) `extractInlineResponses`
skips null path items without raising; but (3) an undefined `paths` value
raises a SyntaxError and (4) a null response entry raises a TypeError — so
the extractor is not exception-free on malformed input. -/
theorem extract_normalize_error_behavior (style : String) :
    (∀ (responses scaffolding namingConfig : JVal),
      jsGet scaffolding "responseNaming" = .ok JVal.undef →
      ∃ r, normalizeExistingResponses responses scaffolding namingConfig = .ok r) ∧
    (∀ (route : String) (scaffolding namingConfig : JVal),
      jsGet scaffolding "responseNaming" = .ok JVal.undef →
      ∃ res, extractInlineResponses (JVal.obj [(route, JVal.null)]) scaffolding style namingConfig
        = .ok res ∧ res.responseMapping = []) ∧
    (∀ (scaffolding namingConfig : JVal),
      jsGet scaffolding "responseNaming" = .ok JVal.undef →
      extractInlineResponses JVal.undef scaffolding style namingConfig
        = .error "SyntaxError") ∧
    (∀ (route sc : String) (scaffolding namingConfig : JVal),
      jsGet scaffolding "responseNaming" = .ok JVal.undef →
      extractInlineResponses
        (JVal.obj [(route, .obj [("get", .obj [("responses", .obj [(sc, JVal.null)])])])])
        scaffolding style namingConfig = .error "TypeError") := by
  refine ⟨?_, ?_, ?_, ?_⟩
  · intro responses scaffolding namingConfig hscaf
    by_cases hresp : truthy responses = true
    · have hstep := normalizeStep_ok (JVal.obj []) (JVal.obj []) (convStr namingConfig)
        (by decide)
      obtain ⟨stf, hf⟩ := foldlM_ok_of_step_ok _ (jsEntries responses)
        (fun st a _ => hstep st a) ⟨[], [], [], []⟩
      refine ⟨⟨stf.normalized, stf.mapping, stf.refMapping⟩, ?_⟩
      unfold normalizeExistingResponses
      simp [hresp, hscaf, jsOr_of_undef, truthy_obj, jsGet_obj, jsGetOpt,
        lookupField, List.find?, Bind.bind, Except.bind, Pure.pure, Except.pure, hf]
    · simp at hresp
      refine ⟨⟨[], [], []⟩, ?_⟩
      unfold normalizeExistingResponses
      simp [hresp, Bind.bind, Except.bind, Pure.pure, Except.pure]
  · intro route scaffolding namingConfig hscaf
    refine ⟨⟨.obj [(route, .null)], [], []⟩, ?_, ?_⟩
    · unfold extractInlineResponses
      simp [hscaf, jsOr_of_undef, truthy_obj, jsGet_obj, jsGetOpt, lookupField,
        List.find?, jsonCleanTop, jsonClean, jsonCleanFields, jsEntries, List.foldlM,
        extractRouteStep, truthy, Bind.bind, Except.bind, Pure.pure, Except.pure]
    · rfl
  · intro scaffolding namingConfig hscaf
    unfold extractInlineResponses
    simp [hscaf, jsOr_of_undef, truthy_obj, jsGet_obj, jsGetOpt, lookupField,
      List.find?, jsonCleanTop, jsonClean, Bind.bind, Except.bind, Pure.pure, Except.pure]
  · intro route sc scaffolding namingConfig hscaf
    unfold extractInlineResponses
    simp +decide [hscaf, jsOr_of_undef, truthy_obj, jsGet_obj, jsGet_null_err,
      jsGetOpt, lookupField, List.find?,
      jsonCleanTop, jsonClean, jsonCleanFields, jsEntries, List.foldlM,
      extractRouteStep, extractOpStep, extractRespStep, HTTP_METHODS, toLowerStr,
      asciiToLower, isAsciiUpper, List.contains, truthy,
      Bind.bind, Except.bind, Pure.pure, Except.pure]

/-- C4 witness: the amended theorem applied at concrete inputs (scaffolding
`{}` has no `responseNaming`). -/
theorem extract_normalize_error_behavior_witness :
    (∃ r, normalizeExistingResponses (JVal.obj [("NotFound", .obj [])])
      (JVal.obj []) JVal.undef = .ok r) ∧
    (∃ res, extractInlineResponses (JVal.obj [("/x", JVal.null)])
      (JVal.obj []) "restful" JVal.undef = .ok res ∧ res.responseMapping = []) ∧
    extractInlineResponses JVal.undef (JVal.obj []) "restful" JVal.undef
      = .error "SyntaxError" ∧
    extractInlineResponses
      (JVal.obj [("/x", .obj [("get", .obj [("responses", .obj [("200", JVal.null)])])])])
      (JVal.obj []) "restful" JVal.undef = .error "TypeError" :=
  ⟨(extract_normalize_error_behavior "restful").1 _ _ _ rfl,
   (extract_normalize_error_behavior "restful").2.1 "/x" _ _ rfl,
   (extract_normalize_error_behavior "restful").2.2.1 _ _ rfl,
   (extract_normalize_error_behavior "restful").2.2.2 "/x" "200" _ _ rfl⟩

/- ===================== C6: fixRefs is atomic on failure ===================== -/

/-- C6: `fixRefs` never throws and is atomic on failure: whenever JSON
serialization of the fragment fails (e.g. a circular structure) or
deserialization of the rewritten text fails, the original fragment — same
heap, same address — is returned unchanged.  (Being a total function, the
model also shows no other input raises.) -/
theorem fixRefs_atomic (h : Heap) (a : Nat) (componentType : String)
    (config : JVal) (sm rm : Option (List (String × FileTarget))) :
    (stringifyH h a [] (h.nodes.length + 1) = none →
      fixRefsH h a componentType config sm rm = (h, a)) ∧
    (∀ s, stringifyH h a [] (h.nodes.length + 1) = some s →
      parseJson (if componentType = "paths"
        then transformPathRefsStr
          (jvalToNameString (jsOr (jsGetOpt config "mainFileName") (.str "main"))) s
        else transformRefsStr componentType
          ⟨jvalToNameString (jsOr (jsGetOpt config "mainFileName") (.str "main")),
           jsOr (jsGetOpt config "naming") (.obj []),
           jsOr (jsGetOpt config "affixes") (.obj [])⟩ sm rm s) = none →
      fixRefsH h a componentType config sm rm = (h, a)) := by
  constructor
  · intro hs
    unfold fixRefsH
    cases hl : lookupNode h a with
    | none => rfl
    | some nd => cases nd <;> simp_all [fixRefsH]
  · intro s hs hp
    unfold fixRefsH
    cases hl : lookupNode h a with
    | none => rfl
    | some nd => cases nd <;> simp_all [fixRefsH]

/-- C6 witness: a circular fragment (a self-referential object) is returned
unchanged, and a fragment whose rewrite produces unparseable text (a quote in
`mainFileName`) is also returned unchanged. -/
theorem fixRefs_atomic_witness :
    fixRefsH ⟨[(0, .obj [("self", 0)])], 1⟩ 0 "schemas" (JVal.obj []) none none
      = (⟨[(0, .obj [("self", 0)])], 1⟩, 0) ∧
    fixRefsH ⟨[(0, .obj [("r", 1)]), (1, .str "#/components/schemas/A")], 2⟩ 0 "paths"
      (JVal.obj [("mainFileName", .str "a\"b")]) none none
      = (⟨[(0, .obj [("r", 1)]), (1, .str "#/components/schemas/A")], 2⟩, 0) :=
  ⟨(fixRefs_atomic ⟨[(0, .obj [("self", 0)])], 1⟩ 0 "schemas" (JVal.obj []) none none).1
     (by rfl),
   (fixRefs_atomic ⟨[(0, .obj [("r", 1)]), (1, .str "#/components/schemas/A")], 2⟩ 0 "paths"
      (JVal.obj [("mainFileName", .str "a\"b")]) none none).2
      "\x7b\"r\":\"#/components/schemas/A\"\x7d" (by rfl) (by rfl)⟩

/- ===================== C7: transform does not mutate the caller ===================== -/

/-- Heap extension: all addresses already allocated keep their nodes. -/
def heapExtends (h h' : Heap) : Prop :=
  h.next ≤ h'.next ∧ ∀ a, a < h.next → lookupNode h' a = lookupNode h a

theorem heapExtends_trans {h1 h2 h3 : Heap} (a : heapExtends h1 h2)
    (b : heapExtends h2 h3) : heapExtends h1 h3 :=
  ⟨le_trans a.1 b.1, fun x hx => by rw [b.2 x (lt_of_lt_of_le hx a.1), a.2 x hx]⟩

theorem pushNode_extends (h : Heap) (nd : HNode) : heapExtends h (pushNode h nd).1 := by
  refine ⟨by simp [pushNode], fun a ha => ?_⟩
  unfold pushNode lookupNode
  simp only [List.find?_append]
  cases hf : h.nodes.find? (fun p => p.1 = a) with
  | some q => simp [hf]
  | none =>
    simp [hf]
    omega

mutual
theorem allocJ_extends : ∀ (h : Heap) (v : JVal), heapExtends h (allocJ h v).1
  | h, .undef => pushNode_extends h _
  | h, .null => pushNode_extends h _
  | h, .bool _ => pushNode_extends h _
  | h, .num _ => pushNode_extends h _
  | h, .str _ => pushNode_extends h _
  | h, .arr xs =>
    heapExtends_trans (allocList_extends h xs) (pushNode_extends (allocList h xs).1 _)
  | h, .obj fs =>
    heapExtends_trans (allocFields_extends h fs) (pushNode_extends (allocFields h fs).1 _)

theorem allocList_extends : ∀ (h : Heap) (xs : List JVal), heapExtends h (allocList h xs).1
  | _, [] => ⟨le_refl _, fun _ _ => rfl⟩
  | h, x :: t =>
    heapExtends_trans (allocJ_extends h x) (allocList_extends (allocJ h x).1 t)

theorem allocFields_extends : ∀ (h : Heap) (fs : List (String × JVal)),
    heapExtends h (allocFields h fs).1
  | _, [] => ⟨le_refl _, fun _ _ => rfl⟩
  | h, (_, v) :: t =>
    heapExtends_trans (allocJ_extends h v) (allocFields_extends (allocJ h v).1 t)
end

theorem optionMapM_loop_congr {α β : Type} (f g : α → Option β) (xs : List α)
    (h : ∀ x ∈ xs, f x = g x) :
    ∀ acc, List.mapM.loop f xs acc = List.mapM.loop g xs acc := by
  induction xs with
  | nil => intro acc; rfl
  | cons x t ih =>
    intro acc
    unfold List.mapM.loop
    rw [h x (List.mem_cons_self x t)]
    cases g x with
    | none => rfl
    | some y => exact ih (fun z hz => h z (List.mem_cons_of_mem x hz)) (y :: acc)

theorem optionMapM_congr {α β : Type} (xs : List α) (f g : α → Option β)
    (h : ∀ x ∈ xs, f x = g x) : xs.mapM f = xs.mapM g :=
  optionMapM_loop_congr f g xs h []

theorem lookupNode_mem {h : Heap} {a : Nat} {nd : HNode}
    (hl : lookupNode h a = some nd) : (a, nd) ∈ h.nodes := by
  unfold lookupNode at hl
  obtain ⟨p, hp1, hp2⟩ := Option.map_eq_some'.mp hl
  have hmem := List.mem_of_find?_eq_some hp1
  have hpa : p.1 = a := by simpa using List.find?_some hp1
  obtain ⟨p1, p2⟩ := p
  simp at hp2 hpa
  subst hp2
  subst hpa
  exact hmem

/-- Frame property of decoding: a heap that agrees with `h` on all addresses
below `h.next` decodes every such address to the same value, at every fuel. -/
theorem decodeH_frame (h h' : Heap) (hwf : heapWF h)
    (hag : ∀ a, a < h.next → lookupNode h' a = lookupNode h a) :
    ∀ fuel a, a < h.next → decodeH h' a fuel = decodeH h a fuel := by
  intro fuel
  induction fuel with
  | zero => intro a _; rfl
  | succ n ih =>
    intro a ha
    have key : lookupNode h' a = lookupNode h a := hag a ha
    cases hl : lookupNode h a with
    | none => simp [decodeH, key, hl]
    | some nd =>
      have hchild := hwf (a, nd) (lookupNode_mem hl)
      cases nd with
      | null => simp [decodeH, key, hl]
      | bool b => simp [decodeH, key, hl]
      | num q => simp [decodeH, key, hl]
      | str s => simp [decodeH, key, hl]
      | arr xs =>
        simp only [decodeH, key, hl]
        rw [optionMapM_congr xs _ _ (fun b hb => ih b (hchild b hb))]
      | obj fs =>
        simp only [decodeH, key, hl]
        rw [optionMapM_congr fs _ _ (fun p hp => by
          rw [ih p.2 (hchild p.2 (List.mem_map_of_mem (fun q => q.2) hp))])]

/-- C7: `transform` never mutates the caller's document: after a
`transformH` call (which models the source's clone-then-rewrite pipeline,
transform.js:488-573, over the object heap), the caller's document decodes to
exactly the value it had before the call, at every fuel. -/
theorem transform_no_mutation (h : Heap) (d : Nat) (opts : TransformOptions)
    (scaffoldings : JVal) (hwf : heapWF h) (hd : d < h.next) :
    ∀ fuel, decodeH (transformH h d opts scaffoldings).1 d fuel = decodeH h d fuel := by
  intro fuel
  cases h1 : decodeH h d (h.nodes.length + 1) with
  | none => unfold transformH; rw [h1]
  | some v =>
    unfold transformH
    rw [h1]
    dsimp only
    cases h2 : transform v opts scaffoldings with
    | error e => rfl
    | ok res =>
      exact decodeH_frame h _ hwf (fun a ha => (allocJ_extends h res.openapi).2 a ha) fuel d hd

/-- C7 witness: a concrete two-node document heap decodes identically before
and after `transformH`. -/
theorem transform_no_mutation_witness :
    decodeH (transformH ⟨[(0, .obj [("paths", 1)]), (1, .obj [])], 2⟩ 0
      ⟨.str "standard", .str "restful", .undef⟩
      (JVal.obj [("standard", .obj [("description", .str "std")])])).1 0 3
    = decodeH ⟨[(0, .obj [("paths", 1)]), (1, .obj [])], 2⟩ 0 3 :=
  transform_no_mutation ⟨[(0, .obj [("paths", 1)]), (1, .obj [])], 2⟩ 0
    ⟨.str "standard", .str "restful", .undef⟩
    (JVal.obj [("standard", .obj [("description", .str "std")])])
    (by unfold heapWF; decide) (by decide) 3

/- ===================== C8: applyAffixes idempotence ===================== -/

theorem jsStartsWith_append_self (p x : String) : jsStartsWith (p ++ x) p = true := by
  unfold jsStartsWith
  rw [List.isPrefixOf_iff_prefix, String.data_append]
  exact List.prefix_append p.data x.data

theorem jsStartsWith_append_right (x p s : String) (h : jsStartsWith x p = true) :
    jsStartsWith (x ++ s) p = true := by
  unfold jsStartsWith at h ⊢
  rw [List.isPrefixOf_iff_prefix] at h ⊢
  rw [String.data_append]
  exact h.trans (List.prefix_append x.data s.data)

theorem jsEndsWith_append_self (x s : String) : jsEndsWith (x ++ s) s = true := by
  unfold jsEndsWith
  rw [List.isSuffixOf_iff_suffix, String.data_append]
  exact List.suffix_append x.data s.data

/-- C8: `applyAffixes` is idempotent: for every string `x` and non-empty
prefix and suffix, re-running `applyAffixes` on an already-affixed name is a
no-op. -/
theorem applyAffixes_idem (x pre suf : String) (hp : pre ≠ "") (hs : suf ≠ "") :
    applyAffixes (applyAffixes x pre suf) pre suf = applyAffixes x pre suf := by
  unfold applyAffixes
  by_cases hx : x = ""
  · simp [hx]
  · simp only [hx, if_false]
    set r1 := if pre ≠ "" && !(jsStartsWith x pre) then pre ++ x else x with hr1
    set r2 := if suf ≠ "" && !(jsEndsWith r1 suf) then r1 ++ suf else r1 with hr2
    have hpre1 : jsStartsWith r1 pre = true := by
      rw [hr1]
      split
      · exact jsStartsWith_append_self pre x
      · rename_i hcond
        simp [hp] at hcond
        exact hcond
    have hpre2 : jsStartsWith r2 pre = true := by
      rw [hr2]
      split
      · exact jsStartsWith_append_right r1 pre suf hpre1
      · exact hpre1
    have hsuf2 : jsEndsWith r2 suf = true := by
      rw [hr2]
      split
      · exact jsEndsWith_append_self r1 suf
      · rename_i hcond
        simp [hs] at hcond
        exact hcond
    by_cases hr2e : r2 = ""
    · simp [hr2e]
    · simp [hr2e, hpre2, hsuf2]

/-- C8 witness: idempotence at a concrete name with concrete affixes. -/
theorem applyAffixes_idem_witness :
    applyAffixes (applyAffixes "User" "CR" "Schema") "CR" "Schema"
      = applyAffixes "User" "CR" "Schema" :=
  applyAffixes_idem "User" "CR" "Schema" (by decide) (by decide)

/- ===================== C9: PascalCase round trip ===================== -/


theorem lower_char_facts (c : Char) (h : isAsciiLower c = true) :
    asciiToLower (asciiToUpper c) = c ∧ asciiToLower c = c ∧
    isAsciiUpper (asciiToUpper c) = true ∧ isAsciiLower (asciiToUpper c) = false ∧
    isJsWs c = false ∧ (c = '_') = False ∧ (c = '-') = False ∧
    isJsWs (asciiToUpper c) = false ∧ ((asciiToUpper c) = '_') = False ∧
    ((asciiToUpper c) = '-') = False ∧ isAsciiUpper c = false := by
  simp [isAsciiLower] at h
  obtain ⟨n, hn1, hn2, rfl⟩ : ∃ n, 97 ≤ n ∧ n ≤ 122 ∧ c = Char.ofNat n :=
    ⟨c.toNat, h.1, h.2, (Char.ofNat_toNat c).symm⟩
  interval_cases n <;> exact ⟨by decide, by decide, by decide, by decide, by decide,
    by decide, by decide, by decide, by decide, by decide, by decide⟩

-- camelSplit: no split inside a lowercase run, split at a following uppercase head
theorem camelSplit_lower_append (w : List Char) (hw : ∀ c ∈ w, isAsciiLower c = true) :
    ∀ rest, (rest = [] → camelSplitChars (w ++ rest) = w) ∧
      (∀ d t, rest = d :: t → isAsciiUpper d = true →
        w ≠ [] → camelSplitChars (w ++ rest) = w ++ ' ' :: camelSplitChars rest) := by
  induction w with
  | nil =>
    intro rest
    refine ⟨fun h => by simp [h, camelSplitChars], fun d t hr hd hne => absurd rfl hne⟩
  | cons c w' ih =>
    intro rest
    have hc := hw c (List.mem_cons_self c w')
    have hw' : ∀ x ∈ w', isAsciiLower x = true := fun x hx => hw x (List.mem_cons_of_mem c hx)
    constructor
    · intro h
      subst h
      simp only [List.append_nil]
      -- camelSplitChars of an all-lowercase list is itself
      cases w' with
      | nil => rfl
      | cons c2 w'' =>
        have h2 := hw c2 (by simp)
        have hrec : camelSplitChars (c2 :: w'') = c2 :: w'' := by
          have := (ih (fun x hx => hw' x hx) []).1 rfl
          simpa using this
        conv_lhs => rw [camelSplitChars]
        rw [if_neg (by simp [(lower_char_facts c2 h2).2.2.2.2.2.2.2.2.2.2]), hrec]
    · intro d t hr hd hne
      subst hr
      cases w' with
      | nil =>
        show camelSplitChars (c :: d :: t) = _
        conv_lhs => rw [camelSplitChars]
        rw [if_pos (by simp [hc, hd])]
        rfl
      | cons c2 w'' =>
        have h2 := hw c2 (by simp)
        have ihh := (ih hw' (d :: t)).2 d t rfl hd (by simp)
        show camelSplitChars (c :: c2 :: (w'' ++ d :: t)) = _
        conv_lhs => rw [camelSplitChars]
        rw [if_neg (by simp [(lower_char_facts c2 h2).2.2.2.2.2.2.2.2.2.2])]
        rw [show (c2 :: (w'' ++ d :: t) : List Char) = (c2 :: w'') ++ d :: t from rfl, ihh]
        rfl


theorem pascalOfWordsL_cons (w : List Char) (ws : List (List Char)) :
    pascalOfWordsL (w :: ws) = capWordL w ++ pascalOfWordsL ws := by
  simp [pascalOfWordsL]

theorem camelSplit_pascal (ws : List (List Char))
    (h1 : ∀ w ∈ ws, w ≠ [] ∧ ∀ c ∈ w, isAsciiLower c = true)
    (h2 : nonFinalLong ws = true) :
    camelSplitChars (pascalOfWordsL ws) = spJoin (ws.map capWordL) := by
  induction ws with
  | nil => rfl
  | cons w rest ih =>
    obtain ⟨hwne, hwlc⟩ := h1 w (List.mem_cons_self w rest)
    cases rest with
    | nil =>
      -- single word
      rw [pascalOfWordsL_cons]
      show camelSplitChars (capWordL w ++ pascalOfWordsL []) = spJoin [capWordL w]
      cases w with
      | nil => exact absurd rfl hwne
      | cons c wt =>
        have hc := hwlc c (by simp)
        show camelSplitChars ((asciiToUpper c :: wt) ++ []) = _
        rw [List.append_nil]
        cases wt with
        | nil => rfl
        | cons c2 wt' =>
          have hwt : ∀ x ∈ (c2 :: wt'), isAsciiLower x = true :=
            fun x hx => hwlc x (List.mem_cons_of_mem c hx)
          have hrec := (camelSplit_lower_append (c2 :: wt') hwt []).1 rfl
          simp only [List.append_nil] at hrec
          show camelSplitChars (asciiToUpper c :: c2 :: wt') = _
          conv_lhs => rw [camelSplitChars]
          rw [if_neg (by simp [(lower_char_facts c hc).2.2.2.1]), hrec]
          rfl
    | cons r t =>
      obtain ⟨hrne, hrlc⟩ := h1 r (by simp)
      -- w has length ≥ 2
      have hw2 : 2 ≤ w.length := by
        simp [nonFinalLong] at h2
        exact h2.1
      have h2rest : nonFinalLong (r :: t) = true := by
        simp [nonFinalLong] at h2 ⊢
        exact h2.2
      have ihh := ih (fun x hx => h1 x (List.mem_cons_of_mem w hx)) h2rest
      -- pascalOfWordsL (r :: t) starts with an uppercase char
      obtain ⟨rc, rt, hr⟩ : ∃ rc rt, r = rc :: rt := by
        cases r with
        | nil => exact absurd rfl hrne
        | cons a b => exact ⟨a, b, rfl⟩
      have hrc : isAsciiLower rc = true := hrlc rc (by rw [hr]; simp)
      have hprt : pascalOfWordsL (r :: t) = asciiToUpper rc :: (rt ++ pascalOfWordsL t) := by
        rw [pascalOfWordsL_cons, hr]
        rfl
      obtain ⟨c, c2, wt, hwshape⟩ : ∃ c c2 wt, w = c :: c2 :: wt := by
        cases w with
        | nil => exact absurd rfl hwne
        | cons a b =>
          cases b with
          | nil => simp at hw2
          | cons a2 b2 => exact ⟨a, a2, b2, rfl⟩
      subst hwshape
      have hc := hwlc c (by simp)
      have htail : ∀ x ∈ (c2 :: wt), isAsciiLower x = true :=
        fun x hx => hwlc x (List.mem_cons_of_mem c hx)
      rw [pascalOfWordsL_cons]
      show camelSplitChars (asciiToUpper c :: c2 :: (wt ++ pascalOfWordsL (r :: t))) = _
      conv_lhs => rw [camelSplitChars]
      rw [if_neg (by simp [(lower_char_facts c hc).2.2.2.1])]
      have hsplit := (camelSplit_lower_append (c2 :: wt) htail (pascalOfWordsL (r :: t))).2
        (asciiToUpper rc) (rt ++ pascalOfWordsL t) hprt
        (lower_char_facts rc hrc).2.2.1 (by simp)
      show asciiToUpper c :: camelSplitChars ((c2 :: wt) ++ pascalOfWordsL (r :: t)) = _
      rw [hsplit, ihh]
      show (asciiToUpper c :: c2 :: wt) ++ ' ' :: spJoin ((r :: t).map capWordL) = _
      cases t with
      | nil => rfl
      | cons t1 t2 => rfl

theorem spJoin_mem (L : List (List Char)) (c : Char) (hc : c ∈ spJoin L) :
    c = ' ' ∨ ∃ w ∈ L, c ∈ w := by
  induction L with
  | nil => simp [spJoin] at hc
  | cons w rest ih =>
    cases rest with
    | nil =>
      simp [spJoin] at hc
      exact Or.inr ⟨w, by simp, hc⟩
    | cons r t =>
      simp only [spJoin] at hc
      rw [List.mem_append] at hc
      rcases hc with hw | hsp
      · exact Or.inr ⟨w, by simp, hw⟩
      · rcases List.mem_cons.mp hsp with hc | hrest
        · exact Or.inl hc
        · rcases ih hrest with h | ⟨w', hw', hcw⟩
          · exact Or.inl h
          · exact Or.inr ⟨w', List.mem_cons_of_mem w hw', hcw⟩

theorem replaceChar_noop (a b : Char) (l : List Char) (h : ∀ c ∈ l, (c = a) = False) :
    replaceChar a b l = l := by
  unfold replaceChar
  rw [List.map_congr_left (fun c hc =>
    (by simp [h c hc] : (if c = a then b else c) = id c)), List.map_id]

theorem map_asciiToLower_spJoin (L : List (List Char)) :
    (spJoin L).map asciiToLower = spJoin (L.map (List.map asciiToLower)) := by
  induction L with
  | nil => rfl
  | cons w rest ih =>
    cases rest with
    | nil => rfl
    | cons r t =>
      simp only [spJoin, List.map_append, List.map_cons, ih]
      rfl

theorem map_asciiToLower_capWordL (w : List Char)
    (h : ∀ c ∈ w, isAsciiLower c = true) : (capWordL w).map asciiToLower = w := by
  cases w with
  | nil => rfl
  | cons c t =>
    show asciiToLower (asciiToUpper c) :: t.map asciiToLower = c :: t
    rw [(lower_char_facts c (h c (by simp))).1,
      List.map_congr_left (fun x hx =>
        ((lower_char_facts x (h x (List.mem_cons_of_mem c hx))).2.1 :
          asciiToLower x = id x))]
    simp

theorem jsTrimL_noop (l : List Char)
    (h1 : ∀ c, l.head? = some c → isJsWs c = false)
    (h2 : ∀ c, l.getLast? = some c → isJsWs c = false) : jsTrimL l = l := by
  unfold jsTrimL
  have hd : l.dropWhile isJsWs = l := by
    cases l with
    | nil => rfl
    | cons c t => exact List.dropWhile_cons_of_neg (by simp [h1 c rfl])
  rw [hd]
  have hr : l.reverse.dropWhile isJsWs = l.reverse := by
    cases hrev : l.reverse with
    | nil => rfl
    | cons c t =>
      refine List.dropWhile_cons_of_neg ?_
      have : l.getLast? = some c := by
        rw [← List.head?_reverse, hrev]
        rfl
      simp [h2 c this]
  rw [hr, List.reverse_reverse]

theorem spJoin_ends (ws : List (List Char))
    (h : ∀ w ∈ ws, w ≠ [] ∧ ∀ c ∈ w, isAsciiLower c = true) :
    (∀ c, (spJoin ws).head? = some c → isAsciiLower c = true) ∧
    (∀ c, (spJoin ws).getLast? = some c → isAsciiLower c = true) := by
  induction ws with
  | nil => exact ⟨fun c hc => by simp [spJoin] at hc, fun c hc => by simp [spJoin] at hc⟩
  | cons w rest ih =>
    obtain ⟨hwne, hwlc⟩ := h w (List.mem_cons_self w rest)
    cases rest with
    | nil =>
      refine ⟨fun c hc => ?_, fun c hc => ?_⟩
      · exact hwlc c (by simpa using List.mem_of_mem_head? hc)
      · exact hwlc c (by simpa using List.mem_of_mem_getLast? hc)
    | cons r t =>
      have ihh := ih (fun x hx => h x (List.mem_cons_of_mem w hx))
      refine ⟨fun c hc => ?_, fun c hc => ?_⟩
      · -- head of w ++ ' ' :: spJoin (r :: t) is head of w
        obtain ⟨wc, wt, hw⟩ : ∃ wc wt, w = wc :: wt := by
          cases w with
          | nil => exact absurd rfl hwne
          | cons a b => exact ⟨a, b, rfl⟩
        subst hw
        simp only [spJoin, List.cons_append, List.head?_cons] at hc
        exact hwlc c (by simp [← Option.some_inj.mp hc])
      · -- last of w ++ ' ' :: spJoin (r :: t) is last of spJoin (r :: t)
        simp only [spJoin] at hc
        rw [List.getLast?_append_of_ne_nil _ (by simp)] at hc
        have hne : spJoin (r :: t) ≠ [] := by
          obtain ⟨hrne, _⟩ := h r (by simp)
          cases t with
          | nil => simpa [spJoin] using hrne
          | cons t1 t2 => simp [spJoin]
        obtain ⟨z, zs, hz⟩ := List.exists_cons_of_ne_nil hne
        rw [hz, List.getLast?_cons_cons] at hc
        exact ihh.2 c (by rw [hz]; exact hc)

theorem splitNonWsAux_word (w : List Char) (hw : ∀ c ∈ w, isJsWs c = false) :
    ∀ cur rest, splitNonWsAux cur (w ++ rest) = splitNonWsAux (w.reverse ++ cur) rest := by
  induction w with
  | nil => intro cur rest; simp
  | cons c w' ih =>
    intro cur rest
    have hc := hw c (by simp)
    have h1 : splitNonWsAux cur (c :: (w' ++ rest)) = splitNonWsAux (c :: cur) (w' ++ rest) := by
      conv_lhs => rw [splitNonWsAux]
      rw [if_neg (by simp [hc])]
    show splitNonWsAux cur (c :: (w' ++ rest)) = _
    rw [h1, ih (fun x hx => hw x (List.mem_cons_of_mem c hx)) (c :: cur) rest]
    congr 1
    simp

theorem splitNonWs_spJoin (ws : List (List Char))
    (h : ∀ w ∈ ws, w ≠ [] ∧ ∀ c ∈ w, isJsWs c = false) :
    splitNonWs (spJoin ws) = ws := by
  induction ws with
  | nil => rfl
  | cons w rest ih =>
    obtain ⟨hwne, hwnws⟩ := h w (List.mem_cons_self w rest)
    cases rest with
    | nil =>
      show splitNonWsAux [] (spJoin [w]) = [w]
      have : spJoin [w] = w ++ [] := by simp [spJoin]
      rw [this, splitNonWsAux_word w hwnws [] []]
      show (if (w.reverse ++ []).isEmpty then [] else [(w.reverse ++ []).reverse]) = [w]
      simp [hwne]
    | cons r t =>
      have ihh := ih (fun x hx => h x (List.mem_cons_of_mem w hx))
      show splitNonWsAux [] (spJoin (w :: r :: t)) = _
      have : spJoin (w :: r :: t) = w ++ (' ' :: spJoin (r :: t)) := rfl
      rw [this, splitNonWsAux_word w hwnws [] (' ' :: spJoin (r :: t))]
      show splitNonWsAux (w.reverse ++ []) (' ' :: spJoin (r :: t)) = _
      unfold splitNonWsAux
      rw [if_pos (by decide)]
      have hne : ((w.reverse ++ [] : List Char)).isEmpty = false := by simp [hwne]
      rw [hne]
      simp only [Bool.false_eq_true, if_false]
      rw [show ((w.reverse ++ [] : List Char)).reverse = w by simp]
      exact congrArg (w :: ·) ihh

theorem toWordsL_pascal (ws : List (List Char))
    (h1 : ∀ w ∈ ws, w ≠ [] ∧ ∀ c ∈ w, isAsciiLower c = true)
    (h2 : nonFinalLong ws = true) :
    toWordsL (pascalOfWordsL ws) = ws := by
  unfold toWordsL
  rw [camelSplit_pascal ws h1 h2]
  have hmemfacts : ∀ c ∈ spJoin (ws.map capWordL),
      (c = '_') = False ∧ (c = '-') = False := by
    intro c hc
    rcases spJoin_mem _ c hc with hsp | ⟨w', hw', hcw⟩
    · subst hsp
      exact ⟨by simp, by simp⟩
    · obtain ⟨w, hw, rfl⟩ := List.mem_map.mp hw'
      obtain ⟨hne, hlc⟩ := h1 w hw
      cases w with
      | nil => exact absurd rfl hne
      | cons a t =>
        rcases List.mem_cons.mp hcw with rfl | hct
        · have := lower_char_facts a (hlc a (by simp))
          exact ⟨this.2.2.2.2.2.2.2.2.1, this.2.2.2.2.2.2.2.2.2.1⟩
        · have := lower_char_facts c (hlc c (List.mem_cons_of_mem a hct))
          exact ⟨this.2.2.2.2.2.1, this.2.2.2.2.2.2.1⟩
  rw [replaceChar_noop '_' ' ' _ (fun c hc => (hmemfacts c hc).1)]
  rw [replaceChar_noop '-' ' ' _ (fun c hc => (hmemfacts c hc).2)]
  rw [map_asciiToLower_spJoin]
  have hlowmap : (ws.map capWordL).map (List.map asciiToLower) = ws := by
    rw [List.map_map]
    exact (List.map_congr_left (fun w hw =>
      (map_asciiToLower_capWordL w (h1 w hw).2 :
        (List.map asciiToLower ∘ capWordL) w = id w))).trans (List.map_id ws)
  rw [hlowmap]
  have hends := spJoin_ends ws h1
  rw [jsTrimL_noop _
    (fun c hc => (lower_char_facts c (hends.1 c hc)).2.2.2.2.1)
    (fun c hc => (lower_char_facts c (hends.2 c hc)).2.2.2.2.1)]
  exact splitNonWs_spJoin ws (fun w hw =>
    ⟨(h1 w hw).1, fun c hc => (lower_char_facts c ((h1 w hw).2 c hc)).2.2.2.2.1⟩)

/-- C9 (amended): the PascalCase round-trip
`applyConvention(toWords(applyConvention(words, PascalCase)), PascalCase)`
reproduces the same string for word lists of nonempty lowercase alphabetic
tokens in which every non-final token has at least two letters (single-letter
non-final tokens break the camel-case boundary detection, see the
counterexample).  Stated both for the word-level pipeline and as a fixpoint of
`applyNamingConvention`. -/
theorem pascal_roundtrip (ws : List (List Char))
    (h1 : ∀ w ∈ ws, w ≠ [] ∧ ∀ c ∈ w, isAsciiLower c = true)
    (h2 : nonFinalLong ws = true) :
    pascalOfWordsL (toWordsL (pascalOfWordsL ws)) = pascalOfWordsL ws ∧
    applyNamingConvention (String.mk (pascalOfWordsL ws)) "PascalCase"
      = String.mk (pascalOfWordsL ws) := by
  constructor
  · rw [toWordsL_pascal ws h1 h2]
  · unfold applyNamingConvention
    by_cases hmk : String.mk (pascalOfWordsL ws) = ""
    · simp [hmk]
    · simp only [hmk, if_false]
      rw [toWordsL_pascal ws h1 h2]
      cases ws with
      | nil => exact absurd (by decide : String.mk (pascalOfWordsL []) = "") hmk
      | cons w rest => simp


/-- C9 counterexample: for the word list `["a", "b"]` the round trip fails:
PascalCase gives `"AB"`, `toWords` cannot see a boundary between two adjacent
uppercase letters (the camel-case regex needs a lowercase letter before an
uppercase one), so the second pass produces `"Ab"`. -/
theorem pascal_roundtrip_fails :
    pascalOfWordsL [['a'], ['b']] = "AB".data ∧
    pascalOfWordsL (toWordsL (pascalOfWordsL [['a'], ['b']])) = "Ab".data ∧
    ("Ab".data = "AB".data) = False := by
  refine ⟨by decide, by decide, by decide⟩

/-- C9 witness: the amended round trip applied at `["emp", "x"]` (a final
single-letter token is allowed). -/
theorem pascal_roundtrip_witness :
    pascalOfWordsL (toWordsL (pascalOfWordsL [['e','m','p'], ['x']]))
      = pascalOfWordsL [['e','m','p'], ['x']] ∧
    applyNamingConvention (String.mk (pascalOfWordsL [['e','m','p'], ['x']])) "PascalCase"
      = String.mk (pascalOfWordsL [['e','m','p'], ['x']]) :=
  pascal_roundtrip [['e','m','p'], ['x']] (by decide) (by decide)

/- ===================== C10: detectApiStyle on empty paths ===================== -/

theorem exceptBind_ok {α β : Type} {x : Except String α} {f : α → Except String β} {b : β}
    (h : x >>= f = Except.ok b) : ∃ a, x = Except.ok a ∧ f a = Except.ok b := by
  cases x with
  | error e => simp [Bind.bind, Except.bind] at h
  | ok a => exact ⟨a, rfl, by simpa [Bind.bind, Except.bind] using h⟩

theorem scoreVerbsAtEnd_empty {detection : JVal} {s : JQ} {c : Nat}
    (h : scoreVerbsAtEnd (JVal.obj []) detection = Except.ok (s, c)) :
    s = JQ.ofInt 0 ∧ c ≤ 1 := by
  unfold scoreVerbsAtEnd at h
  dsimp only at h
  split at h
  · obtain ⟨verbs, hv, h⟩ := exceptBind_ok h
    obtain ⟨minR, hm, h⟩ := exceptBind_ok h
    simp [computeVerbsAtEndRatio, jsEntries, truthy, Pure.pure, Except.pure] at h
    exact ⟨h.1.symm, by omega⟩
  · simp [Pure.pure, Except.pure] at h
    exact ⟨h.1.symm, by omega⟩

theorem scorePluralResources_empty {detection : JVal} {s : JQ} {c : Nat}
    (h : scorePluralResources (JVal.obj []) detection = Except.ok (s, c)) :
    s = JQ.ofInt 0 ∧ c ≤ 1 := by
  unfold scorePluralResources at h
  dsimp only at h
  split at h
  · obtain ⟨minR, hm, h⟩ := exceptBind_ok h
    simp [computePluralResourcesRatio, jsEntries, truthy, Pure.pure, Except.pure] at h
    exact ⟨h.1.symm, by omega⟩
  · simp [Pure.pure, Except.pure] at h
    exact ⟨h.1.symm, by omega⟩

theorem scoreCustomMethods_empty {detection : JVal} {s : JQ} {c : Nat}
    (h : scoreCustomMethods (JVal.obj []) detection = Except.ok (s, c)) :
    (s = JQ.ofInt 0 ∨ s = JQ.mk 0 2) ∧ c ≤ 1 := by
  unfold scoreCustomMethods at h
  dsimp only at h
  split at h
  · obtain ⟨minR, hm, h⟩ := exceptBind_ok h
    simp [computeCustomMethodsRatio, jsEntries, truthy, JQ.mul, JQ.ofInt,
      Pure.pure, Except.pure] at h
    rcases h with ⟨h1, h2⟩
    constructor
    · split at h1
      · right; exact h1.symm
      · left; exact h1.symm
    · omega
  · simp [Pure.pure, Except.pure] at h
    exact ⟨Or.inl h.1.symm, by omega⟩

theorem scoreVerbsInPath_empty {detection : JVal} {s : JQ} {c : Nat}
    (hvip : truthy (jsGetOpt detection "verbsInPath") = true)
    (hmax : jsGetOpt (jsGetOpt detection "verbsInPath") "maxRatio" = JVal.undef)
    (h : scoreVerbsInPath (JVal.obj []) detection = Except.ok (s, c)) :
    s = JQ.mk 1 1 ∧ c = 1 := by
  unfold scoreVerbsInPath at h
  dsimp only at h
  rw [hvip] at h
  simp only [if_true] at h
  rw [hmax] at h
  simp only [jqOfJValNum, Bind.bind, Except.bind] at h
  obtain ⟨prefs, hp, h⟩ := exceptBind_ok h
  simp [computeVerbsInPathRatio, jsEntries, truthy, JQ.leB, JQ.normSign, JQ.sub, JQ.ofInt,
    Pure.pure, Except.pure] at h
  exact ⟨h.1.symm, h.2.symm⟩

theorem scoreOperationIdPatterns_empty {detection : JVal} {s : JQ} {c : Nat}
    (h : scoreOperationIdPatterns (JVal.obj []) detection = Except.ok (s, c)) :
    s = JQ.ofInt 0 ∧ c ≤ 1 := by
  unfold scoreOperationIdPatterns at h
  dsimp only at h
  split at h
  · obtain ⟨minR, hm, h⟩ := exceptBind_ok h
    simp [computeOperationIdPatternRatio, jsEntries, truthy, Pure.pure, Except.pure] at h
    exact ⟨h.1.symm, by omega⟩
  · simp [Pure.pure, Except.pure] at h
    exact ⟨h.1.symm, by omega⟩

theorem scoreStyle_empty_pos {detection : JVal} {p : JQ × Nat}
    (hvip : truthy (jsGetOpt detection "verbsInPath") = true)
    (hmax : jsGetOpt (jsGetOpt detection "verbsInPath") "maxRatio" = JVal.undef)
    (hok : scoreStyle (JVal.obj []) detection = Except.ok p) :
    JQ.ltB (JQ.ofInt 0) (JQ.div p.1 (JQ.ofInt p.2)) = true ∧ 1 ≤ p.2 ∧ p.2 ≤ 5 := by
  obtain ⟨pv, pn⟩ := p
  unfold scoreStyle at hok
  obtain ⟨⟨s1, c1⟩, h1, hok⟩ := exceptBind_ok hok
  obtain ⟨⟨s2, c2⟩, h2, hok⟩ := exceptBind_ok hok
  obtain ⟨⟨s3, c3⟩, h3, hok⟩ := exceptBind_ok hok
  obtain ⟨⟨s4, c4⟩, h4, hok⟩ := exceptBind_ok hok
  obtain ⟨⟨s5, c5⟩, h5, hok⟩ := exceptBind_ok hok
  simp [Pure.pure, Except.pure] at hok
  obtain ⟨hpv, hpn⟩ := hok
  obtain ⟨hs1, hc1⟩ := scoreVerbsAtEnd_empty h1
  obtain ⟨hs2, hc2⟩ := scorePluralResources_empty h2
  obtain ⟨hs3, hc3⟩ := scoreCustomMethods_empty h3
  obtain ⟨hs4, hc4⟩ := scoreVerbsInPath_empty hvip hmax h4
  obtain ⟨hs5, hc5⟩ := scoreOperationIdPatterns_empty h5
  subst hs1 hs2 hs4 hs5 hc4
  subst hpv hpn
  rcases hs3 with h | h <;> subst h <;>
    refine ⟨?_, by omega, by omega⟩ <;>
    (interval_cases c1 <;> interval_cases c2 <;> interval_cases c3 <;> interval_cases c5 <;>
      decide)

theorem jsGetOpt_obj (fs : List (String × JVal)) (k : String) :
    jsGetOpt (.obj fs) k = (lookupField fs k).getD .undef := rfl

theorem truthy_of_getOpt_truthy {v : JVal} {k : String}
    (h : truthy (jsGetOpt v k) = true) : truthy v = true := by
  cases v <;> simp [jsGetOpt, truthy] at h ⊢

/-- C10 (amended): on the empty paths object, a scaffolding style whose
detection block enables the `verbsInPath` heuristic (with the default
`maxRatio` and no explicit `enabled` flag) receives a strictly positive
normalized score whenever its score computation succeeds
(`computeVerbsInPathRatio` is 0 on empty paths, so the heuristic contributes
1 - 0 = 1 while every other heuristic contributes 0); consequently, when the
scaffolding set consists of that single style, `detectApiStyle` returns that
style — not the sentinel 'standard' — with confidence 100.  (The original
claim's stronger reading, that EVERY such style is returned as the winner,
fails when several styles qualify: see the counterexample.) -/
theorem detect_singleton_verbsInPath_wins (sname : String) (detection : JVal) (p : JQ × Nat)
    (hvip : truthy (jsGetOpt detection "verbsInPath") = true)
    (hmax : jsGetOpt (jsGetOpt detection "verbsInPath") "maxRatio" = JVal.undef)
    (hen : jsGetOpt detection "enabled" = JVal.undef)
    (hok : scoreStyle (JVal.obj []) detection = Except.ok p) :
    JQ.ltB (JQ.ofInt 0) (JQ.div p.1 (JQ.ofInt p.2)) = true ∧
    (detectApiStyle (JVal.obj [])
        (JVal.obj [(sname, JVal.obj [("detection", detection)])])).map
      (fun r => (r.style, r.confidence)) = Except.ok (sname, 100) := by
  obtain ⟨hpos, hn1, hn5⟩ := scoreStyle_empty_pos hvip hmax hok
  refine ⟨hpos, ?_⟩
  have hdet : truthy detection = true := truthy_of_getOpt_truthy hvip
  have hn0 : 0 < p.2 := by omega
  unfold detectApiStyle
  simp +decide [jsEntries, List.foldlM, jsGet_obj, jsGetOpt_obj, lookupField, List.find?,
    hdet, hen, hok, hn0, hpos, sortScored, insertScored, Bind.bind, Except.bind,
    Pure.pure, Except.pure, Except.map]

/-- C10 counterexample: both styles 'alpha' and 'beta' enable `verbsInPath`
with the default `maxRatio`, so on the empty paths object both score a
positive normalized 1; but `detectApiStyle` returns 'alpha' (the stable sort
keeps input order on the tie), so the claim's conclusion — that the detector
"returns that style as the winner" for any qualifying style — fails for
'beta'. -/
theorem detect_two_qualifying_styles_first_wins :
    truthy (jsGetOpt (JVal.obj [("verbsInPath", JVal.obj [])]) "verbsInPath") = true ∧
    jsGetOpt (jsGetOpt (JVal.obj [("verbsInPath", JVal.obj [])]) "verbsInPath") "maxRatio"
      = JVal.undef ∧
    (detectApiStyle (JVal.obj [])
        (JVal.obj
          [("alpha", JVal.obj [("detection", JVal.obj [("verbsInPath", JVal.obj [])])]),
           ("beta", JVal.obj [("detection", JVal.obj [("verbsInPath", JVal.obj [])])])])).map
      (fun r => (r.style, r.confidence, r.scores)) =
      Except.ok ("alpha", 50, [("alpha", 100), ("beta", 100)]) ∧
    "alpha" ≠ "beta" :=
  ⟨rfl, rfl, rfl, by decide⟩

/-- C10 witness: the amended theorem instantiated at the single style
'rpcish' whose detection block is exactly `{ verbsInPath: {} }`. -/
theorem detect_singleton_verbsInPath_wins_witness :
    JQ.ltB (JQ.ofInt 0) (JQ.div (JQ.mk 1 1) (JQ.ofInt 1)) = true ∧
    (detectApiStyle (JVal.obj [])
        (JVal.obj [("rpcish", JVal.obj
          [("detection", JVal.obj [("verbsInPath", JVal.obj [])])])])).map
      (fun r => (r.style, r.confidence)) = Except.ok ("rpcish", 100) :=
  detect_singleton_verbsInPath_wins "rpcish" (JVal.obj [("verbsInPath", JVal.obj [])])
    (⟨1, 1⟩, 1) (by rfl) (by rfl) (by rfl) (by rfl)

/- ===================== C3: mapping fileName uniqueness ===================== -/

theorem mem_setAssoc {α : Type} (l : List (String × α)) (k : String) (v : α)
    (p : String × α) (h : p ∈ setAssoc l k v) : p = (k, v) ∨ p ∈ l := by
  induction l with
  | nil => simpa [setAssoc] using h
  | cons q t ih =>
    rw [setAssoc] at h
    split at h
    · rcases List.mem_cons.mp h with h | h
      · exact Or.inl h
      · exact Or.inr (List.mem_cons_of_mem _ h)
    · rcases List.mem_cons.mp h with h | h
      · exact Or.inr (h ▸ List.mem_cons_self _ _)
      · rcases ih h with h' | h'
        · exact Or.inl h'
        · exact Or.inr (List.mem_cons_of_mem _ h')

theorem keys_setAssoc {α : Type} (l : List (String × α)) (k : String) (v : α)
    (x : String) (h : x ∈ (setAssoc l k v).map (·.1)) : x ∈ l.map (·.1) ∨ x = k := by
  rcases List.mem_map.mp h with ⟨p, hp, hx⟩
  rcases mem_setAssoc l k v p hp with h' | h'
  · right; rw [h'] at hx; exact hx.symm
  · left; exact hx ▸ List.mem_map_of_mem _ h'

theorem setAssoc_keys_nodup {α : Type} (l : List (String × α)) (k : String) (v : α)
    (h : (l.map (·.1)).Nodup) : ((setAssoc l k v).map (·.1)).Nodup := by
  induction l with
  | nil => simp [setAssoc]
  | cons q t ih =>
    rw [setAssoc]
    split
    · next heq => rw [← heq]; simpa using h
    · simp only [List.map_cons, List.nodup_cons] at h ⊢
      refine ⟨fun hmem => ?_, ih h.2⟩
      rcases keys_setAssoc t k v q.1 hmem with h' | h'
      · exact h.1 h'
      · next hne => exact hne h'

theorem respMapInv_nil : respMapInv [] := ⟨List.nodup_nil, by simp⟩

theorem respMapInv_setAssoc {m : List (String × RespEntry)} (hm : respMapInv m)
    (k : String) (e : RespEntry) (hf : e.folder = "responses") (hn : e.fileName = k) :
    respMapInv (setAssoc m k e) := by
  refine ⟨setAssoc_keys_nodup m k e hm.1, fun p hp => ?_⟩
  rcases mem_setAssoc m k e p hp with h | h
  · rw [h]; exact ⟨hf, hn⟩
  · exact hm.2 p h

theorem foldlM_inv {σ α : Type} (P : σ → Prop) (f : σ → α → Except String σ) (l : List α)
    (hstep : ∀ s a s', f s a = Except.ok s' → P s → P s') :
    ∀ (s0 s1 : σ), l.foldlM f s0 = Except.ok s1 → P s0 → P s1 := by
  induction l with
  | nil =>
    intro s0 s1 h h0
    simp [List.foldlM, Pure.pure, Except.pure] at h
    exact h ▸ h0
  | cons a t ih =>
    intro s0 s1 h h0
    rw [List.foldlM_cons] at h
    obtain ⟨s', hs', h⟩ := exceptBind_ok h
    exact ih s' s1 h (hstep s0 a s' hs' h0)

theorem normalizeStep_mapInv (responseNaming statusNames : JVal) (convention : String)
    (st st' : NormalizeState) (p : String × JVal)
    (h : normalizeStep responseNaming statusNames convention st p = Except.ok st')
    (hm : respMapInv st.mapping) : respMapInv st'.mapping := by
  unfold normalizeStep at h
  simp only [Bind.bind, Except.bind, Pure.pure, Except.pure] at h
  repeat' split at h
  all_goals
    first
    | exact Except.noConfusion h
    | (simp only [Except.ok.injEq] at h
       subst h
       first
       | exact hm
       | exact respMapInv_setAssoc hm _ _ rfl rfl)

theorem extractRespStep_mapInv (responseNaming statusNames : JVal) (dedupeErrors : Bool)
    (style route method : String) (operation : JVal) (st st' : ExtractState)
    (p : String × JVal)
    (h : extractRespStep responseNaming statusNames dedupeErrors style route method operation
          st p = Except.ok st')
    (hm : respMapInv st.mapping) : respMapInv st'.mapping := by
  unfold extractRespStep at h
  simp only [Bind.bind, Except.bind, Pure.pure, Except.pure] at h
  repeat' split at h
  all_goals
    first
    | exact Except.noConfusion h
    | (simp only [Except.ok.injEq] at h
       subst h
       first
       | exact hm
       | exact respMapInv_setAssoc hm _ _ rfl rfl)

theorem extractOpStep_mapInv (responseNaming statusNames : JVal) (dedupeErrors : Bool)
    (style route : String) (st st' : ExtractState) (p : String × JVal)
    (h : extractOpStep responseNaming statusNames dedupeErrors style route st p
          = Except.ok st')
    (hm : respMapInv st.mapping) : respMapInv st'.mapping := by
  unfold extractOpStep at h
  simp only [Bind.bind, Except.bind, Pure.pure, Except.pure] at h
  repeat' split at h
  all_goals
    first
    | (exact foldlM_inv (fun s => respMapInv s.mapping) _ _
        (fun s a s' hstep hp =>
          extractRespStep_mapInv responseNaming statusNames dedupeErrors style route p.1 p.2
            s s' a hstep hp)
        st st' h hm)
    | exact Except.noConfusion h
    | (simp only [Except.ok.injEq] at h
       subst h
       exact hm)

theorem extractRouteStep_mapInv (responseNaming statusNames : JVal) (dedupeErrors : Bool)
    (style : String) (st st' : ExtractState) (p : String × JVal)
    (h : extractRouteStep responseNaming statusNames dedupeErrors style st p = Except.ok st')
    (hm : respMapInv st.mapping) : respMapInv st'.mapping := by
  unfold extractRouteStep at h
  simp only [Bind.bind, Except.bind, Pure.pure, Except.pure] at h
  repeat' split at h
  all_goals
    first
    | (exact foldlM_inv (fun s => respMapInv s.mapping) _ _
        (fun s a s' hstep hp =>
          extractOpStep_mapInv responseNaming statusNames dedupeErrors style p.1 s s' a hstep hp)
        st st' h hm)
    | exact Except.noConfusion h
    | (simp only [Except.ok.injEq] at h
       subst h
       exact hm)

theorem normalize_mapInv (responses scaffolding namingConfig : JVal) (r : NormalizeResult)
    (h : normalizeExistingResponses responses scaffolding namingConfig = Except.ok r) :
    respMapInv r.responseMapping := by
  unfold normalizeExistingResponses at h
  dsimp only at h
  split at h
  · simp only [Pure.pure, Except.pure, Except.ok.injEq] at h
    subst h
    exact respMapInv_nil
  · obtain ⟨u, hu, h⟩ := exceptBind_ok h
    obtain ⟨rn, hrn, h⟩ := exceptBind_ok h
    obtain ⟨sn, hsn, h⟩ := exceptBind_ok h
    obtain ⟨st, hst, h⟩ := exceptBind_ok h
    simp only [Pure.pure, Except.pure, Except.ok.injEq] at h
    subst h
    exact foldlM_inv (fun s => respMapInv s.mapping) _ _
      (fun s a s' hs hp => normalizeStep_mapInv _ _ _ s s' a hs hp) _ _ hst respMapInv_nil

theorem extract_mapInv (paths scaffolding : JVal) (style : String) (nc : JVal)
    (r : ExtractResult) (h : extractInlineResponses paths scaffolding style nc = Except.ok r) :
    respMapInv r.responseMapping := by
  unfold extractInlineResponses at h
  dsimp only at h
  obtain ⟨rn, hrn, h⟩ := exceptBind_ok h
  obtain ⟨sn, hsn, h⟩ := exceptBind_ok h
  obtain ⟨tp0, htp, h⟩ := exceptBind_ok h
  obtain ⟨st, hst, h⟩ := exceptBind_ok h
  simp only [Pure.pure, Except.pure, Except.ok.injEq] at h
  subst h
  exact foldlM_inv (fun s => respMapInv s.mapping) _ _
    (fun s a s' hs hp => extractRouteStep_mapInv _ _ _ _ s s' a hs hp) _ _ hst respMapInv_nil

theorem foldl_setAssoc_inv : ∀ (b a : List (String × RespEntry)),
    respMapInv a → (∀ p ∈ b, p.2.folder = "responses" ∧ p.2.fileName = p.1) →
    respMapInv (b.foldl (fun acc p => setAssoc acc p.1 p.2) a)
  | [], _, ha, _ => ha
  | q :: t, a, ha, hb => by
    simp only [List.foldl_cons]
    exact foldl_setAssoc_inv t (setAssoc a q.1 q.2)
      (respMapInv_setAssoc ha _ _ (hb q (List.mem_cons_self _ _)).1
        (hb q (List.mem_cons_self _ _)).2)
      (fun p hp => hb p (List.mem_cons_of_mem _ hp))

theorem spreadMerge_respMapInv (a b : List (String × RespEntry))
    (ha : respMapInv a) (hb : ∀ p ∈ b, p.2.folder = "responses" ∧ p.2.fileName = p.1) :
    respMapInv (spreadMerge a b) :=
  foldl_setAssoc_inv b a ha hb

theorem respMapping_conclusion (norm : NormalizeResult) (ext : ExtractResult)
    (a1 a2 a3 b1 b2 b3 : JVal) (s : String)
    (hn : normalizeExistingResponses a1 a2 a3 = Except.ok norm)
    (he : extractInlineResponses b1 b2 s b3 = Except.ok ext) :
    (∀ p ∈ spreadMerge norm.responseMapping ext.responseMapping,
      p.2.folder = "responses" ∧ p.2.fileName = p.1) ∧
    ((spreadMerge norm.responseMapping ext.responseMapping).map
      (fun p => p.2.fileName)).Nodup := by
  have hinv : respMapInv (spreadMerge norm.responseMapping ext.responseMapping) :=
    spreadMerge_respMapInv _ _ (normalize_mapInv _ _ _ _ hn)
      (fun p hp => (extract_mapInv _ _ _ _ _ he).2 p hp)
  refine ⟨hinv.2, ?_⟩
  have hmap : (spreadMerge norm.responseMapping ext.responseMapping).map
      (fun p => p.2.fileName) = (spreadMerge norm.responseMapping ext.responseMapping).map
      (fun p => p.1) :=
    List.map_congr_left (fun p hp => (hinv.2 p hp).2)
  rw [hmap]
  exact hinv.1

/-- C3 (amended): in every successful `transform` run, the returned
responseMapping has no two entries with the same fileName (all of its entries
live in the single folder 'responses', each entry's fileName equals its
association key, and the keys are pairwise distinct because both the
normalization and extraction passes insert by key and the final spread merge
collapses equal keys).  The schemaMapping part of the original claim is false:
see the counterexample, where two distinct schema names map to the same
fileName in the same folder. -/
theorem transform_response_fileNames_unique (openapi : JVal) (options : TransformOptions)
    (scaffoldings : JVal) (r : TransformResult)
    (h : transform openapi options scaffoldings = Except.ok r) :
    (∀ p ∈ r.responseMapping, p.2.folder = "responses" ∧ p.2.fileName = p.1) ∧
    (r.responseMapping.map (fun p => p.2.fileName)).Nodup := by
  unfold transform at h
  simp only [Bind.bind, Except.bind, Pure.pure, Except.pure] at h
  repeat' split at h
  all_goals
    first
    | exact Except.noConfusion h
    | (simp only [Except.ok.injEq] at h
       subst h
       apply respMapping_conclusion <;> assumption)

/-- C3 counterexample: schemas `my_user` and `myUser` both normalize to the
PascalCase fileName 'MyUser' in the same folder 'schemas', so the returned
schemaMapping carries two entries with identical (folder, fileName) pairs,
refuting the schemaMapping half of the uniqueness claim. -/
theorem transform_schema_fileName_collision :
    (transform
        (JVal.obj [("paths", JVal.obj []),
          ("components", JVal.obj [("schemas",
            JVal.obj [("my_user", JVal.obj []), ("myUser", JVal.obj [])])])])
        ⟨JVal.str "standard", JVal.str "restful", JVal.undef⟩
        (JVal.obj [("standard", JVal.obj [("description", JVal.str "std")])])).map
      (fun r => r.schemaMapping.map
        (fun (p : String × SchemaEntry) => (p.1, p.2.folder, p.2.fileName))) =
      Except.ok [("my_user", JVal.str "schemas", "MyUser"),
                 ("myUser", JVal.str "schemas", "MyUser")] ∧
    "my_user" ≠ "myUser" :=
  ⟨rfl, by decide⟩

/-- C3 witness: the amended theorem instantiated on a document with one
pre-existing component response `NotFound404`, whose transform result is
computed in full. -/
theorem transform_response_fileNames_unique_witness :
    (∀ p ∈ [("NotFound404", (⟨"responses", "NotFound404", "404", none, none,
        some "NotFound404"⟩ : RespEntry))], p.2.folder = "responses" ∧ p.2.fileName = p.1) ∧
    (([("NotFound404", (⟨"responses", "NotFound404", "404", none, none,
        some "NotFound404"⟩ : RespEntry))]).map (fun p => p.2.fileName)).Nodup :=
  transform_response_fileNames_unique
    (JVal.obj [("paths", JVal.obj []),
      ("components", JVal.obj [("responses",
        JVal.obj [("NotFound404", JVal.obj [("description", JVal.str "nf")])])])])
    ⟨JVal.str "standard", JVal.str "restful", JVal.undef⟩
    (JVal.obj [("standard", JVal.obj [("description", JVal.str "std")])])
    ⟨JVal.obj [("paths", JVal.obj []),
      ("components", JVal.obj [("responses",
        JVal.obj [("NotFound404", JVal.obj [("description", JVal.str "nf")])])])],
     [], [("NotFound404", ⟨"responses", "NotFound404", "404", none, none,
        some "NotFound404"⟩)], [], "restful", 0, 0, 1, 0⟩
    (by rfl)
